import Mathlib

/-!
Verification development for the kebbie noise-injection and scoring engine.

The definitions below are a shallow embedding of the Python sources
(`kebbie/utils.py`, `kebbie/layout.py`, `kebbie/noise_model.py`,
`kebbie/scorer.py`) into Lean 4.  Python floats are modelled as exact
rationals, Python `int` as `ℤ`, raising of `ZeroDivisionError` as an
`Except` value, and the global `random` module as an explicit source of
draws threaded through the computations.  Data that is not part of the
sources (the keyboard-layout JSON, the gesture helper) is modelled from
the specification and marked as such in its doc comment.
-/

set_option autoImplicit false

namespace Kebbie

/-- Errors a Python-level computation can raise in the modelled fragment. -/
inductive PyErr where
  | zeroDivision
  deriving DecidableEq, Repr

/-- Decidable equality for `Except` results (needed to evaluate closed
score computations). -/
def exceptDecEq {e a : Type} [DecidableEq e] [DecidableEq a] :
    DecidableEq (Except e a) := fun x y =>
  match x, y with
  | .ok v, .ok w =>
    if h : v = w then isTrue (by rw [h]) else isFalse (by intro hh; cases hh; exact h rfl)
  | .error v, .error w =>
    if h : v = w then isTrue (by rw [h]) else isFalse (by intro hh; cases hh; exact h rfl)
  | .ok _, .error _ => isFalse (by intro hh; cases hh)
  | .error _, .ok _ => isFalse (by intro hh; cases hh)

instance {e a : Type} [DecidableEq e] [DecidableEq a] : DecidableEq (Except e a) :=
  exceptDecEq

/-- Python division: `a / b` raises `ZeroDivisionError` when `b == 0`. -/
def pyDivE (a b : ℚ) : Except PyErr ℚ :=
  if b = 0 then .error .zeroDivision else .ok (a / b)

/-- Round-half-to-even on rationals, the rounding used by Python `round`. -/
def pyRoundHalfEven (x : ℚ) : ℤ :=
  let f : ℤ := ⌊x⌋
  let r : ℚ := x - f
  if r < 1/2 then f
  else if 1/2 < r then f + 1
  else if f % 2 = 0 then f else f + 1

/-- Python `round(x, nd)` (possibly negative `nd`), modelled exactly on ℚ. -/
def pyRound (x : ℚ) (nd : ℤ) : ℚ :=
  (pyRoundHalfEven (x * (10 : ℚ) ^ nd) : ℚ) / (10 : ℚ) ^ nd

/-- `utils.round_to_n`: round `x` to `n` significant digits; `0` maps to `0`.
For `x > 0`, `math.floor(math.log10(x))` is `Int.log 10 x`.  (For `x < 0`
Python would raise; that case is unreachable in the modelled fragment and
is mapped to `0`.) -/
def round_to_n (x : ℚ) (n : ℕ := 2) : ℚ :=
  if x ≤ 0 then 0 else pyRound x (-(Int.log 10 x) + (n - 1 : ℤ))

/-- `utils.accuracy` before the `try/except`: the attempted division. -/
def accuracyE (tp tn fp fn : ℤ) : Except PyErr ℚ :=
  pyDivE ((tp + tn : ℤ) : ℚ) ((tp + tn + fp + fn : ℤ) : ℚ)

/-- `utils.accuracy`: `(tp+tn)/(tp+tn+fp+fn)`, `0` on `ZeroDivisionError`. -/
def accuracy (tp tn fp fn : ℤ) : ℚ :=
  match accuracyE tp tn fp fn with
  | .ok v => v
  | .error _ => 0

/-- `utils.precision` before the `try/except`: the attempted division. -/
def precisionE (tp fp : ℤ) : Except PyErr ℚ :=
  pyDivE ((tp : ℤ) : ℚ) ((tp + fp : ℤ) : ℚ)

/-- `utils.precision`: `tp/(tp+fp)`, `0` on `ZeroDivisionError`. -/
def precision (tp fp : ℤ) : ℚ :=
  match precisionE tp fp with
  | .ok v => v
  | .error _ => 0

/-- `utils.recall` before the `try/except`: the attempted division. -/
def recallE (tp fn : ℤ) : Except PyErr ℚ :=
  pyDivE ((tp : ℤ) : ℚ) ((tp + fn : ℤ) : ℚ)

/-- `utils.recall` (named `recall'` since `recall` is a Lean keyword): `tp/(tp+fn)`, `0` on `ZeroDivisionError`. -/
def recall' (tp fn : ℤ) : ℚ :=
  match recallE tp fn with
  | .ok v => v
  | .error _ => 0

/-- `utils.fbeta` before the `try/except`: the attempted division. -/
def fbetaE (p r beta : ℚ) : Except PyErr ℚ :=
  pyDivE ((1 + beta ^ 2) * p * r) (beta ^ 2 * p + r)

/-- `utils.fbeta`: `(1+β²)·p·r / (β²·p + r)`, `0` on `ZeroDivisionError`. -/
def fbeta (p r : ℚ) (beta : ℚ := 1) : ℚ :=
  match fbetaE p r beta with
  | .ok v => v
  | .error _ => 0

/-- The `Typo` enum from `noise_model.py`, in declaration order. -/
inductive Typo where
  | DELETE_SPELLING_SYMBOL
  | DELETE_SPACE
  | DELETE_PUNCTUATION
  | DELETE_CHAR
  | ADD_SPELLING_SYMBOL
  | ADD_SPACE
  | ADD_PUNCTUATION
  | ADD_CHAR
  | SUBSTITUTE_CHAR
  | SIMPLIFY_ACCENT
  | SIMPLIFY_CASE
  | TRANSPOSE_CHAR
  | COMMON_TYPO
  deriving DecidableEq, Repr

/-- The members of the `Typo` enum in declaration order (Python `for t in Typo`). -/
def allTypos : List Typo :=
  [.DELETE_SPELLING_SYMBOL, .DELETE_SPACE, .DELETE_PUNCTUATION, .DELETE_CHAR,
   .ADD_SPELLING_SYMBOL, .ADD_SPACE, .ADD_PUNCTUATION, .ADD_CHAR,
   .SUBSTITUTE_CHAR, .SIMPLIFY_ACCENT, .SIMPLIFY_CASE, .TRANSPOSE_CHAR, .COMMON_TYPO]

/-- `noise_model.DELETIONS`. -/
def DELETIONS : List Typo :=
  [.DELETE_SPELLING_SYMBOL, .DELETE_SPACE, .DELETE_PUNCTUATION, .DELETE_CHAR]

/-- `noise_model.FRONT_DELETION_MULTIPLIER` (0.36). -/
def FRONT_DELETION_MULTIPLIER : ℚ := 36 / 100

/-- `noise_model.DEFAULT_SIGMA_RATIO`. -/
def DEFAULT_SIGMA_RATIO : ℚ := 3

/-- `noise_model.DEFAULT_TYPO_PROBS`. -/
def DEFAULT_TYPO_PROBS : Typo → ℚ
  | .TRANSPOSE_CHAR => 1 / 100
  | .DELETE_SPELLING_SYMBOL => 1 / 10
  | .ADD_SPELLING_SYMBOL => 0
  | .DELETE_SPACE => 1 / 100
  | .ADD_SPACE => 0
  | .DELETE_PUNCTUATION => 0
  | .ADD_PUNCTUATION => 0
  | .DELETE_CHAR => 5 / 1000
  | .ADD_CHAR => 5 / 1000
  | .SIMPLIFY_ACCENT => 8 / 100
  | .SIMPLIFY_CASE => 8 / 100
  | .COMMON_TYPO => 5 / 100
  | .SUBSTITUTE_CHAR => 0

/-- `layout.KeyInfo`: per-character geometry (the tuple returned by
`LayoutHelper.get_key_info`: width, height, center x, center y, layer id). -/
structure KeyInfo where
  width : ℚ
  height : ℚ
  cx : ℚ
  cy : ℚ
  klayer : ℕ
  deriving DecidableEq, Repr

/-- `layout.Key`: one key of a keyboard layer (character plus bounding box). -/
structure KeyB where
  char : Char
  left : ℚ
  right : ℚ
  top : ℚ
  bottom : ℚ
  deriving DecidableEq, Repr

/-- The queries `noise_model.py` makes of a constructed `LayoutHelper`:
`keys_info` (char → geometry, `none` modelling the `KeyError`),
`klayers_info` (layer id → keys), the spelling symbols and the accented
letters from the keyboard settings. -/
structure Keyboard where
  keyInfo : Char → Option KeyInfo
  klayers : ℕ → List KeyB
  spellingSymbols : List Char
  letterAccents : List Char

/-- Squared euclidean distance from `pos` to the center of a key's bounding
box.  `layout.get_key` minimises `euclidian_dist` (a square root); minimising
the squared distance selects the same first-minimum key, which keeps the
model inside ℚ. -/
def keyDist2 (pos : ℚ × ℚ) (k : KeyB) : ℚ :=
  (pos.1 - (k.left + (k.right - k.left) / 2)) ^ 2 +
    (pos.2 - (k.top + (k.bottom - k.top) / 2)) ^ 2

/-- First strict minimum of a list of keys by squared distance (Python `min`
keeps the first of equally-near keys). -/
def argminKey (pos : ℚ × ℚ) : List KeyB → Option KeyB
  | [] => none
  | k :: ks =>
    match argminKey pos ks with
    | none => some k
    | some b => if keyDist2 pos b < keyDist2 pos k then some b else some k

/-- `LayoutHelper.get_key`: the character whose bounding box contains `pos`
in layer `klayerId`; if none contains it, the character of the nearest box
center.  An empty layer (unreachable for the keyboards in use, where
`klayerId` always comes from `get_key_info`) yields a NUL character. -/
def get_key (kb : Keyboard) (pos : ℚ × ℚ) (klayerId : ℕ) : Char :=
  let klayer := kb.klayers klayerId
  match klayer.find? fun k =>
      k.left ≤ pos.1 ∧ pos.1 ≤ k.right ∧ k.top ≤ pos.2 ∧ pos.2 ≤ k.bottom with
  | some k => k.char
  | none =>
    match argminKey pos klayer with
    | some k => k.char
    | none => Char.ofNat 0

/-- Python `str.isspace` for a single character, restricted to the ASCII
whitespace the modelled fragment uses. -/
def pyIsSpace (c : Char) : Bool :=
  c.toNat = 32 ∨ (9 ≤ c.toNat ∧ c.toNat ≤ 13)

/-- Membership in Python `string.punctuation` (the four ASCII ranges
33–47, 58–64, 91–96, 123–126). -/
def pyIsPunct (c : Char) : Bool :=
  let n := c.toNat
  (33 ≤ n ∧ n ≤ 47) ∨ (58 ≤ n ∧ n ≤ 64) ∨ (91 ≤ n ∧ n ≤ 96) ∨ (123 ≤ n ∧ n ≤ 126)

/-- Python `str.isnumeric` for a single character, restricted to the ASCII
digits (the only numerals the modelled fragment meets). -/
def pyIsNumeric (c : Char) : Bool := c.isDigit

/-- A Unicode letter (`\pL`), restricted to the Latin alphabet the modelled
fragment uses. -/
def unicodeLetter (c : Char) : Bool := c.isAlpha

/-- Python `str.isupper` for a whole word: at least one cased character and
every cased character uppercase. -/
def pyStrIsUpper (w : List Char) : Bool :=
  w.any (fun c => c.isUpper ∨ c.isLower) ∧
    w.all (fun c => (c.isUpper ∨ c.isLower) → c.isUpper)

/-- `utils.strip_accents` (NFKD then drop combining marks), restricted to a
table of the accented Latin-1 letters; other characters are unchanged. -/
def strip_accents (c : Char) : Char :=
  if c ∈ ['à', 'á', 'â', 'ã', 'ä', 'å'] then 'a'
  else if c ∈ ['è', 'é', 'ê', 'ë'] then 'e'
  else if c ∈ ['ì', 'í', 'î', 'ï'] then 'i'
  else if c ∈ ['ò', 'ó', 'ô', 'õ', 'ö'] then 'o'
  else if c ∈ ['ù', 'ú', 'û', 'ü'] then 'u'
  else if c = 'ç' then 'c'
  else if c = 'ñ' then 'n'
  else c

/-- The global `random` generator, modelled as two independent streams of
draws: `unif` for uniform draws in `[0, 1)` (`random.random` inside
`random.choices` / `random.choice`) and `nrm` for standard-normal draws
(`random.gauss(mu, sigma) = mu + sigma·z`). -/
structure RSource where
  unif : ℕ → ℚ
  nrm : ℕ → ℚ

/-- Position of the next unconsumed draw in each stream. -/
structure RState where
  uIdx : ℕ
  gIdx : ℕ
  deriving DecidableEq, Repr

/-- The uniform draws of a source all lie in `[0, 1)`, as `random.random`
guarantees. -/
def ValidUnif (r : RSource) : Prop := ∀ n, 0 ≤ r.unif n ∧ r.unif n < 1

/-- Consume one uniform draw. -/
def drawU (r : RSource) (st : RState) : ℚ × RState :=
  (r.unif st.uIdx, ⟨st.uIdx + 1, st.gIdx⟩)

/-- Consume one standard-normal draw. -/
def drawG (r : RSource) (st : RState) : ℚ × RState :=
  (r.nrm st.gIdx, ⟨st.uIdx, st.gIdx + 1⟩)

/-- `utils.sample`: Bernoulli draw at probability `proba`.  `0` and `1`
short-circuit without consuming a draw; otherwise
`random.choices([True, False], weights=[p, 1-p])` picks `True` iff the
uniform draw is below `p`.  (The `assert 0 <= proba <= 1` is a
precondition of every modelled call site.) -/
def sample (proba : ℚ) (r : RSource) (st : RState) : Bool × RState :=
  if proba = 0 then (false, st)
  else if proba = 1 then (true, st)
  else
    let (u, st') := drawU r st
    (decide (u < proba), st')

/-- Cumulative-weight pick of `random.choices(options, weights)` with one
uniform draw `u` in `[0, total)`: the first option whose cumulative weight
exceeds `u` (`bisect` clamps to the last index, hence the singleton case). -/
def pickCum (u : ℚ) : List (Option Typo × ℚ) → ℚ → Option Typo
  | [], _ => none
  | [(o, _)], _ => o
  | (o, w) :: rest, acc => if u < acc + w then o else pickCum u rest (acc + w)

/-- `utils.sample_among` with `with_none=True`: append a `None` option with
the residual weight `1 - Σ weights` and sample by cumulative weights (so the
total is `1` and exactly one uniform draw is consumed).  (The assertion that
weights are non-negative and sum to at most 1 is a precondition of every
modelled call site.) -/
def sample_among (probs : List (Typo × ℚ)) (r : RSource) (st : RState) :
    Option Typo × RState :=
  let options : List (Option Typo × ℚ) :=
    probs.map (fun ew => (some ew.1, ew.2)) ++ [(none, 1 - (probs.map (·.2)).sum)]
  let (u, st') := drawU r st
  (pickCum u options 0, st')

/-- `random.choice` on a list of strings: one uniform draw scaled by the
length. -/
def pyChoice (l : List String) (r : RSource) (st : RState) : String × RState :=
  let (u, st') := drawU r st
  (l.getD (⌊u * l.length⌋).toNat "", st')

/-- The additions list inlined at `noise_model.py:328`. -/
def ADDITIONS : List Typo :=
  [.ADD_SPELLING_SYMBOL, .ADD_SPACE, .ADD_PUNCTUATION, .ADD_CHAR]

/-- The configuration of a `NoiseModel` instance as consumed by the modelled
methods: keyboard layout helper, per-typo probabilities, common-typo table
and the four Gaussian tuning scalars. -/
structure NoiseParams where
  kb : Keyboard
  probs : Typo → ℚ
  commonTypos : List (String × List String)
  xOffset : ℚ := 0
  yOffset : ℚ := 0
  xRatio : ℚ := DEFAULT_SIGMA_RATIO
  yRatio : ℚ := DEFAULT_SIGMA_RATIO

/-- One iteration of the character loop of `NoiseModel._introduce_typos`
(body of the `for i, char in enumerate(word_chars)` loop): returns the
emitted characters, the typo labels appended during this iteration, the
updated character buffer (transposition mutates position `i+1`) and the
updated random state.  `orig` is the original word (the Python `word`
string, used for the look-ahead layer check and the word-level predicates),
`buf` the mutable `word_chars` buffer. -/
def itStep (nm : NoiseParams) (r : RSource) (orig : List Char) (i : ℕ)
    (buf : List Char) (st : RState) : List Char × List Typo × List Char × RState :=
  let char0 := buf.getD i ' '
  -- possible simplifications (accent stripping, lowercasing)
  let (sa, st1) :=
    if char0 ∈ nm.kb.letterAccents then sample (nm.probs .SIMPLIFY_ACCENT) r st
    else (false, st)
  let char1 := if sa then strip_accents char0 else char0
  let (sc, st2) :=
    if char1.isUpper ∧ orig.length > 1 ∧ ¬ pyStrIsUpper orig then
      sample (nm.probs .SIMPLIFY_CASE) r st1
    else (false, st1)
  let char := if sc then char1.toLower else char1
  let simpTypos : List Typo :=
    (if sa then [.SIMPLIFY_ACCENT] else []) ++ (if sc then [.SIMPLIFY_CASE] else [])
  let isFirst : Bool := i == 0
  let isLast : Bool := decide (orig.length - 1 ≤ i)
  -- candidate edit events for this position
  let events : List Typo :=
    match nm.kb.keyInfo char with
    | none => []
    | some ki =>
      if pyIsNumeric char then []
      else
        -- the look-ahead layer check uses the original word; a KeyError on
        -- the next character means the layers never compare equal
        let nextSame : Bool :=
          match nm.kb.keyInfo (orig.getD (i + 1) ' ') with
          | some nki => nki.klayer == ki.klayer
          | none => false
        (if !isLast && nextSame then [Typo.TRANSPOSE_CHAR] else [])
        ++ (if char ∈ nm.kb.spellingSymbols then
              [Typo.DELETE_SPELLING_SYMBOL, Typo.ADD_SPELLING_SYMBOL]
            else if pyIsSpace char then [Typo.DELETE_SPACE, Typo.ADD_SPACE]
            else if pyIsPunct char then [Typo.DELETE_PUNCTUATION, Typo.ADD_PUNCTUATION]
            else if ki.klayer = 0 then [Typo.DELETE_CHAR, Typo.ADD_CHAR]
            else [])
  -- last character of a word other than a single space: no deletions
  let events2 :=
    if isLast && decide (orig ≠ [' ']) then events.filter (· ∉ DELETIONS) else events
  -- probabilities, with front deletions damped
  let typoProbs : List (Typo × ℚ) := events2.map fun e =>
    (e, if isFirst && decide (e ∈ DELETIONS) then nm.probs e * FRONT_DELETION_MULTIPLIER
        else nm.probs e)
  let (typoOpt, st3) := sample_among typoProbs r st2
  let (emitted, buf') : List Char × List Char :=
    match typoOpt with
    | some Typo.TRANSPOSE_CHAR => ([buf.getD (i + 1) ' '], buf.set (i + 1) char)
    | some t =>
      if t ∈ DELETIONS then ([], buf)
      else if t ∈ ADDITIONS then ([char, char], buf)
      else ([char], buf)
    | none => ([char], buf)
  (emitted, simpTypos ++ (match typoOpt with | some t => [t] | none => []), buf', st3)

/-- The character loop of `NoiseModel._introduce_typos` from position `i` on:
emitted characters and typo labels of the remaining iterations.  `fuel`
bounds the number of remaining iterations (the callers pass `orig.length`
and start at `i = 0`); recursion on it keeps the definition structural, so
that it evaluates by `decide`. -/
def itLoop (nm : NoiseParams) (r : RSource) (orig : List Char) :
    ℕ → ℕ → List Char → RState → List Char × List Typo × RState
  | 0, _, _, st => ([], [], st)
  | fuel + 1, i, buf, st =>
    if i < orig.length then
      let (out, ty, buf', st') := itStep nm r orig i buf st
      let (restOut, restTy, st'') := itLoop nm r orig fuel (i + 1) buf' st'
      (out ++ restOut, ty ++ restTy, st'')
    else ([], [], st)

/-- `NoiseModel._introduce_typos`: either short-circuit through the
common-typo table, or run the per-character edit loop. -/
def introduce_typos (nm : NoiseParams) (word : String) (errorFree : Bool)
    (r : RSource) (st : RState) : String × List Typo × RState :=
  if errorFree then (word, [], st)
  else
    match nm.commonTypos.find? (fun kv => kv.1 = word) with
    | some kv =>
      let (b, st1) := sample (nm.probs .COMMON_TYPO) r st
      if b then
        let (w, st2) := pyChoice kv.2 r st1
        (w, [.COMMON_TYPO], st2)
      else
        let (out, ty, st2) := itLoop nm r word.toList word.length 0 word.toList st1
        (String.mk out, ty, st2)
    | none =>
      let (out, ty, st1) := itLoop nm r word.toList word.length 0 word.toList st
      (String.mk out, ty, st1)

/-- The character loop of `NoiseModel._fuzzy_type`: keystrokes (null for
characters off the keyboard or off the default layer), resulting characters,
substitution labels, final random state. -/
def fuzzy_type_loop (nm : NoiseParams) (r : RSource) (errorFree : Bool) :
    List Char → RState → List (Option (ℚ × ℚ)) × List Char × List Typo × RState
  | [], st => ([], [], [], st)
  | c :: cs, st =>
    match nm.kb.keyInfo c with
    | none =>
      -- character not on the keyboard: pass through, null keystroke, no typo
      let (ks, out, ty, st') := fuzzy_type_loop nm r errorFree cs st
      (none :: ks, c :: out, ty, st')
    | some ki =>
      let (pt, st1) : (ℚ × ℚ) × RState :=
        if errorFree ∨ ki.klayer ≠ 0 then ((ki.cx, ki.cy), st)
        else
          let (z1, sta) := drawG r st
          let (z2, stb) := drawG r sta
          ((ki.cx + nm.xOffset + ki.width / 2 / nm.xRatio * z1,
            ki.cy + nm.yOffset + ki.height / 2 / nm.yRatio * z2), stb)
      let fc := get_key nm.kb pt ki.klayer
      let (ks, out, ty, st') := fuzzy_type_loop nm r errorFree cs st1
      ((if ki.klayer = 0 then some pt else none) :: ks, fc :: out,
       (if fc ≠ c then [Typo.SUBSTITUTE_CHAR] else []) ++ ty, st')

/-- `NoiseModel._fuzzy_type`. -/
def fuzzy_type (nm : NoiseParams) (word : String) (errorFree : Bool)
    (r : RSource) (st : RState) :
    List (Option (ℚ × ℚ)) × String × List Typo × RState :=
  let (ks, out, ty, st') := fuzzy_type_loop nm r errorFree word.toList st
  (ks, String.mk out, ty, st')

/-- `NoiseModel._is_correctable`: `not bool(re.match(r"^[^\pL]+$", word))`,
i.e. false exactly when the word is non-empty and contains no letter. -/
def is_correctable (word : String) : Bool :=
  !(!word.toList.isEmpty && word.toList.all fun c => !unicodeLetter c)

/-- Modelled from the spec: `kebbie.gesture.make_swipe_gesture` is not under
`src/`; §4.2 only says the per-character coordinate sequence is converted
into a smooth gesture path through those points.  The model keeps the tap
points themselves as the path; no claim depends on the interpolation. -/
def make_swipe_gesture (points : List (ℚ × ℚ)) : List (ℚ × ℚ) := points

/-- The keystrokes `NoiseModel.swipe` computes and feeds into gesture
generation (`keystrokes, *_ = self._fuzzy_type(word, error_free=error_free)`
with `error_free = False if self._is_correctable(word) else True`). -/
def swipe_keystrokes (nm : NoiseParams) (word : String) (r : RSource)
    (st : RState) : List (Option (ℚ × ℚ)) :=
  (fuzzy_type nm word (!is_correctable word) r st).1

/-- `NoiseModel.swipe`: the gesture for `word`, or `none` when some
keystroke is null (`all(keystrokes)`; a coordinate pair is always truthy)
or at most one keystroke exists. -/
def swipe (nm : NoiseParams) (word : String) (r : RSource) (st : RState) :
    Option (List (ℚ × ℚ)) :=
  let ks := swipe_keystrokes nm word r st
  if ks.all (·.isSome) ∧ 1 < ks.length then some (make_swipe_gesture ks.reduceOption)
  else none

/-- Typing one word inside `NoiseModel.type_till_space`: typo injection
followed by fuzzy typing, with `error_free` set for non-correctable words;
the label list concatenates the edit-layer and fuzzy-layer labels. -/
structure WOut where
  ks : List (Option (ℚ × ℚ))
  typed : String
  typos : List Typo
  st : RState

/-- The word-typing step of the `type_till_space` loop body. -/
def word_out (nm : NoiseParams) (w : String) (r : RSource) (st : RState) : WOut :=
  let ef := !is_correctable w
  let (nw, t1, st1) := introduce_typos nm w ef r st
  let (ks, tc, t2, st2) := fuzzy_type nm nw ef r st1
  ⟨ks, tc, t1 ++ t2, st2⟩

/-- The space-typing step of the `type_till_space` loop body, keeping the
edit-layer labels (`sp_typo_1`) and fuzzy-layer labels (`sp_typo_2`)
separate for the cleanliness test. -/
structure SOut where
  ks : List (Option (ℚ × ℚ))
  typed : String
  ty1 : List Typo
  ty2 : List Typo
  st : RState

/-- The space-typing step of the `type_till_space` loop body. -/
def space_out (nm : NoiseParams) (r : RSource) (st : RState) : SOut :=
  let (nsp, t1, st1) := introduce_typos nm " " false r st
  let (ks, tc, t2, st2) := fuzzy_type nm nsp false r st1
  ⟨ks, tc, t1, t2, st2⟩

/-- `NoiseModel.type_till_space`.  On the empty word list the Python loop
body never runs and the final `i + 1` raises `NameError`; this is modelled
as `none`.  Otherwise: type the word, attempt a space; a cleanly-typed
space stops typing without contributing to the outputs, a noisy space is
appended and typing continues with the next word (or stops when the list is
exhausted). -/
def type_till_space (nm : NoiseParams) (words : List String) (r : RSource)
    (st : RState) : Option (List (Option (ℚ × ℚ)) × String × ℕ × List Typo) :=
  match words with
  | [] => none
  | w :: ws =>
    let wo := word_out nm w r st
    let so := space_out nm r wo.st
    if so.ty1 = [] ∧ so.ty2 = [] then some (wo.ks, wo.typed, 1, wo.typos)
    else
      match type_till_space nm ws r so.st with
      | none => some (wo.ks ++ so.ks, wo.typed ++ so.typed, 1, wo.typos ++ so.ty1 ++ so.ty2)
      | some (rks, rtc, rn, rty) =>
        some (wo.ks ++ so.ks ++ rks, wo.typed ++ so.typed ++ rtc, 1 + rn,
              wo.typos ++ so.ty1 ++ so.ty2 ++ rty)

/-- Characters of the default layer (layer 0) of the concrete test keyboard:
the lowercase letters, the point and the space. -/
def layer0Chars : List Char := "abcdefghijklmnopqrstuvwxyz. ".toList

/-- Characters of layer 1 of the concrete test keyboard: uppercase letters. -/
def layer1Chars : List Char := "ABCDEFGHIJKLMNOPQRSTUVWXYZ".toList

/-- Unit-square keys in a row for the given characters. -/
def rowKeys (cs : List Char) : List KeyB :=
  cs.enum.map fun p => ⟨p.2, (p.1 : ℚ), (p.1 : ℚ) + 1, 0, 1⟩

/-- Key geometry of the concrete test keyboard: key `i` of a layer is the
unit square `[i, i+1] × [0, 1]` with center `(i + 1/2, 1/2)`. -/
def kbTestInfo (c : Char) : Option KeyInfo :=
  match layer0Chars.indexOf? c with
  | some i => some ⟨1, 1, (i : ℚ) + 1/2, 1/2, 0⟩
  | none =>
    match layer1Chars.indexOf? c with
    | some i => some ⟨1, 1, (i : ℚ) + 1/2, 1/2, 1⟩
    | none => none

/-- Modelled from the spec: the keyboard-layout JSON (`layouts/en-US.json`)
consumed by `LayoutHelper` is not under `src/`.  Following §2/§3 (layers:
lowercase, uppercase, symbols; the point always present) and the repository
tests (uppercase letters resolve to a non-default layer), this minimal
layout puts the lowercase letters, the point and the space on the default
layer 0 and the uppercase letters on layer 1, each key a unit square; the
apostrophe is the spelling symbol, and no accent variants are configured. -/
def kbTest : Keyboard where
  keyInfo := kbTestInfo
  klayers := fun n =>
    if n = 0 then rowKeys layer0Chars else if n = 1 then rowKeys layer1Chars else []
  spellingSymbols := [Char.ofNat 39]
  letterAccents := []

/-- Probability table assigning `1` to a single typo kind and `0` to all
others (the shape the repository tests use). -/
def probsOnly (t0 : Typo) : Typo → ℚ := fun t => if t = t0 then 1 else 0

/-- NoiseModel over the test keyboard with `Typo.DELETE_CHAR` probability 1
and every other probability 0, and no common typos. -/
def nmDel : NoiseParams := { kb := kbTest, probs := probsOnly .DELETE_CHAR, commonTypos := [] }

/-- NoiseModel over the test keyboard with `Typo.TRANSPOSE_CHAR` probability
1 and every other probability 0, and no common typos. -/
def nmTrans : NoiseParams := { kb := kbTest, probs := probsOnly .TRANSPOSE_CHAR, commonTypos := [] }

/-- NoiseModel over the test keyboard with the default typo probabilities
and no common typos. -/
def nmDefault : NoiseParams := { kb := kbTest, probs := DEFAULT_TYPO_PROBS, commonTypos := [] }

/-- NoiseModel over the test keyboard with every typo probability 0. -/
def nmZero : NoiseParams := { kb := kbTest, probs := fun _ => 0, commonTypos := [] }

/-- A random source with constant streams. -/
def srcConst (u z : ℚ) : RSource := ⟨fun _ => u, fun _ => z⟩

/-- The initial random state. -/
def st0 : RState := ⟨0, 0⟩

example : (introduce_typos nmTrans "hi" false (srcConst (1/2) 0) st0).1 = "ih" := by
  with_unfolding_all decide

example : (introduce_typos nmTrans "hi" false (srcConst (1/2) 0) st0).2.1 = [.TRANSPOSE_CHAR] := by
  with_unfolding_all decide

example : (introduce_typos nmTrans "Hi" false (srcConst (1/2) 0) st0).1 = "Hi" := by
  with_unfolding_all decide

example : (introduce_typos nmTrans "Hi" false (srcConst (1/2) 0) st0).2.1 = [] := by
  with_unfolding_all decide

example : (introduce_typos nmDel "hi" false (srcConst (1/10) 0) st0).1 = "i" := by
  with_unfolding_all decide

example : (introduce_typos nmDel "hi" false (srcConst (1/10) 0) st0).2.1 = [.DELETE_CHAR] := by
  with_unfolding_all decide

example : (introduce_typos nmDel "hi" false (srcConst (1/2) 0) st0).1 = "hi" := by
  with_unfolding_all decide

example : (introduce_typos nmDel "hi" false (srcConst (1/2) 0) st0).2.1 = [] := by
  with_unfolding_all decide

example : (fuzzy_type nmZero "great" false (srcConst 0 0) st0).2.1 = "great" := by
  with_unfolding_all decide

example : (fuzzy_type nmZero "great" false (srcConst 0 0) st0).2.2.1 = [] := by
  with_unfolding_all decide

example : swipe nmDefault "aBc" (srcConst 0 0) st0 = none := by
  with_unfolding_all decide

example : (swipe nmDefault "hi" (srcConst 0 0) st0).isSome = true := by
  with_unfolding_all decide

example : swipe nmDefault "66" (srcConst 0 0) st0 = none := by
  with_unfolding_all decide

example : (swipe nmDefault ".." (srcConst 0 0) st0).isSome = true := by
  with_unfolding_all decide

example : (swipe_keystrokes nmDefault "hi" (srcConst (1/2) 1) st0).head? =
    some (some (15/2 + 1/6, 1/2 + 1/6)) := by
  with_unfolding_all decide

example : (type_till_space nmZero ["hi", "yo"] (srcConst (1/2) 0) st0) =
    some ([some (15/2, 1/2), some (17/2, 1/2)], "hi", 1, []) := by
  with_unfolding_all decide

/-- `scorer.Count`: the basic counts of a task. -/
structure Count where
  correct : ℤ := 0
  correct_3 : ℤ := 0
  total : ℤ := 0
  deriving DecidableEq, Repr

/-- `Count.__add__`: component-wise merge. -/
def Count.add (a b : Count) : Count :=
  ⟨a.correct + b.correct, a.correct_3 + b.correct_3, a.total + b.total⟩

instance : Add Count := ⟨Count.add⟩

instance : Zero Count := ⟨{}⟩

/-- `Count.__mul__`: scale every component by `proportion`, each rounded
with Python `round` (half-to-even). -/
def Count.mul (c : Count) (proportion : ℚ) : Count :=
  ⟨pyRoundHalfEven ((c.correct : ℚ) * proportion),
   pyRoundHalfEven ((c.correct_3 : ℚ) * proportion),
   pyRoundHalfEven ((c.total : ℚ) * proportion)⟩

/-- `sum(counts, Count())`: Python `sum` with a `Count` start value. -/
def countSum (l : List Count) : Count := l.foldl (· + ·) 0

/-- First-match lookup with default, the read side of a Python
`defaultdict` modelled as an insertion-ordered association list. -/
def lookupD {κ V : Type} [DecidableEq κ] : List (κ × V) → κ → V → V
  | [], _, d => d
  | (k', v) :: t, k, d => if k = k' then v else lookupD t k d

/-- Write side of a Python dict: replace the first binding of `k` in place,
or append a new binding at the end (insertion order). -/
def setK {κ V : Type} [DecidableEq κ] : List (κ × V) → κ → V → List (κ × V)
  | [], k, v => [(k, v)]
  | (k', v') :: t, k, v => if k = k' then (k, v) :: t else (k', v') :: setK t k v

/-- Whether a key is bound. -/
def hasKey {κ V : Type} [DecidableEq κ] : List (κ × V) → κ → Bool
  | [], _ => false
  | (k', _) :: t, k => k = k' || hasKey t k

/-- `per[k] += c` on a `defaultdict(Count)`. -/
def bump1 {κ : Type} [DecidableEq κ] (m : List (κ × Count)) (k : κ) (c : Count) :
    List (κ × Count) :=
  setK m k (lookupD m k 0 + c)

/-- The `Scorer.add` inner `update` on a one-layer count dict:
`for k in d2: d1[k] += d2[k]`. -/
def upd1 {κ : Type} [DecidableEq κ] (d1 d2 : List (κ × Count)) : List (κ × Count) :=
  d2.foldl (fun acc kv => bump1 acc kv.1 kv.2) d1

/-- The `Scorer.add` inner `update` on a two-layer count dict:
`for k in d2: update(d1[k], d2[k])` (the `defaultdict` access creates an
empty inner dict when missing). -/
def upd2 {κ₁ κ₂ : Type} [DecidableEq κ₁] [DecidableEq κ₂]
    (d1 d2 : List (κ₁ × List (κ₂ × Count))) : List (κ₁ × List (κ₂ × Count)) :=
  d2.foldl (fun acc kv => setK acc kv.1 (upd1 (lookupD acc kv.1 []) kv.2)) d1

/-- The `Scorer.add` inner `update` on a three-layer count dict. -/
def upd3 {κ₁ κ₂ κ₃ : Type} [DecidableEq κ₁] [DecidableEq κ₂] [DecidableEq κ₃]
    (d1 d2 : List (κ₁ × List (κ₂ × List (κ₃ × Count)))) :
    List (κ₁ × List (κ₂ × List (κ₃ × Count))) :=
  d2.foldl (fun acc kv => setK acc kv.1 (upd2 (lookupD acc kv.1 []) kv.2)) d1

/-- The key of the auto-correction second-level dict: `None` for no typo,
the `Typo` when exactly one, or the number of typos when two or more. -/
inductive TTKey where
  | noTypo
  | one (t : Typo)
  | many (n : ℕ)
  deriving DecidableEq, Repr

/-- `scorer.WITH_TYPO`. -/
def WITH_TYPO : String := "with_typo"

/-- `scorer.WITHOUT_TYPO`. -/
def WITHOUT_TYPO : String := "without_typo"

/-- `scorer.DEFAULT_BETA`. -/
def DEFAULT_BETA : ℚ := 9 / 10

/-- The four nested count structures of a `Scorer` (§ "Scorer internal
state").  The memory/runtime sample lists and the mistake counters of the
Python class are profiling/debugging state outside the modelled claims. -/
structure ScorerCounts where
  nwp_c : List (Option String × Count)
  acp_c : List (Option String × List (String × List (ℚ × Count)))
  acr_c : List (Option String × List (TTKey × Count))
  swp_c : List (Option String × Count)
  deriving DecidableEq, Repr

/-- `defaultdict` read access that creates a zero `Count` for a missing
key, one layer. -/
def touch1 {κ : Type} [DecidableEq κ] (m : List (κ × Count)) (k : κ) :
    List (κ × Count) :=
  if hasKey m k then m else m ++ [(k, 0)]

/-- `defaultdict` read access creating missing entries, two layers. -/
def touch2 {κ₁ κ₂ : Type} [DecidableEq κ₁] [DecidableEq κ₂]
    (m : List (κ₁ × List (κ₂ × Count))) (k1 : κ₁) (k2 : κ₂) :
    List (κ₁ × List (κ₂ × Count)) :=
  setK m k1 (touch1 (lookupD m k1 []) k2)

/-- `defaultdict` read access creating missing entries, three layers. -/
def touch3 {κ₁ κ₂ κ₃ : Type} [DecidableEq κ₁] [DecidableEq κ₂] [DecidableEq κ₃]
    (m : List (κ₁ × List (κ₂ × List (κ₃ × Count)))) (k1 : κ₁) (k2 : κ₂) (k3 : κ₃) :
    List (κ₁ × List (κ₂ × List (κ₃ × Count))) :=
  setK m k1 (touch2 (lookupD m k1 []) k2 k3)

/-- `Scorer.__init__`: create the four structures and touch a zero `Count`
for every domain (`self.nwp_c[d]`, `self.acp_c[d][WITH_TYPO][0]`,
`self.acr_c[d][None]`, `self.swp_c[d]`). -/
def scorer_init (domains : List String) : ScorerCounts :=
  domains.foldl
    (fun s d =>
      { nwp_c := touch1 s.nwp_c (some d)
        acp_c := touch3 s.acp_c (some d) WITH_TYPO 0
        acr_c := touch2 s.acr_c (some d) .noTypo
        swp_c := touch1 s.swp_c (some d) })
    ⟨[], [], [], []⟩

/-- `Scorer.add` restricted to the four count structures (the claim-relevant
state; the sample lists and mistake counters concatenate). -/
def scorer_add (a b : ScorerCounts) : ScorerCounts :=
  ⟨upd1 a.nwp_c b.nwp_c, upd3 a.acp_c b.acp_c, upd2 a.acr_c b.acr_c,
   upd1 a.swp_c b.swp_c⟩

/-- The dictionary `Scorer._score_accuracy` returns. -/
structure AccBlock where
  accuracy : ℚ
  top3_accuracy : ℚ
  n : ℤ
  deriving DecidableEq, Repr

/-- `Scorer._score_accuracy`: accuracy and top-3 accuracy of a `Count`,
`0` when `total` is zero (explicit guard in the source). -/
def score_accuracy (c : Count) : AccBlock :=
  ⟨if c.total ≠ 0 then round_to_n ((c.correct : ℚ) / (c.total : ℚ)) 2 else 0,
   if c.total ≠ 0 then round_to_n ((c.correct_3 : ℚ) / (c.total : ℚ)) 2 else 0,
   c.total⟩

/-- The dictionary `Scorer._score_precision_recall` returns. -/
structure PRBlock where
  accuracy : ℚ
  precision : ℚ
  recall' : ℚ
  fscore : ℚ
  top3_accuracy : ℚ
  top3_precision : ℚ
  top3_recall : ℚ
  top3_fscore : ℚ
  n_typo : ℤ
  n : ℤ
  deriving DecidableEq, Repr

/-- `Scorer._score_precision_recall`: derive tp/fp/tn/fn (and their top-3
variants) from the no-typo and typo `Count`s and compute the metrics. -/
def score_precision_recall (no_typo_c typo_c : Count) (beta : ℚ) : PRBlock :=
  let tn := no_typo_c.correct
  let fp := no_typo_c.total - no_typo_c.correct
  let tp := typo_c.correct
  let fn := typo_c.total - typo_c.correct
  let tn3 := no_typo_c.correct_3
  let fp3 := no_typo_c.total - no_typo_c.correct_3
  let tp3 := typo_c.correct_3
  let fn3 := typo_c.total - typo_c.correct_3
  let p := precision tp fp
  let r := recall' tp fn
  let p3 := precision tp3 fp3
  let r3 := recall' tp3 fn3
  ⟨round_to_n (accuracy tp tn fp fn) 2, round_to_n p 2, round_to_n r 2,
   round_to_n (fbeta p r beta) 2,
   round_to_n (accuracy tp3 tn3 fp3 fn3) 2, round_to_n p3 2, round_to_n r3 2,
   round_to_n (fbeta p3 r3 beta) 2,
   typo_c.total, no_typo_c.total + typo_c.total⟩

/-- Fold of the three nested loops over `acp_c`, regrouping the leaf counts
by the key selected by `key` into a fresh `defaultdict(Count)`. -/
def acpRegroup {κ : Type} [DecidableEq κ]
    (m : List (Option String × List (String × List (ℚ × Count))))
    (key : Option String → String → ℚ → κ) : List (κ × Count) :=
  m.foldl
    (fun a1 kv1 =>
      kv1.2.foldl
        (fun a2 kv2 =>
          kv2.2.foldl (fun a3 kv3 => bump1 a3 (key kv1.1 kv2.1 kv3.1) kv3.2) a2)
        a1)
    []

/-- `TTKey` is a single `Typo` (`isinstance(k, Typo)`). -/
def TTKey.isOne : TTKey → Bool
  | .one _ => true
  | _ => false

/-- `TTKey` is an integer greater than 2 (`isinstance(k, int) and k > 2`). -/
def TTKey.isManyGt2 : TTKey → Bool
  | .many n => 2 < n
  | _ => false

/-- The next-word-prediction / swipe-resolution task results. -/
structure TaskAcc where
  score : AccBlock
  per_domain : List (Option String × AccBlock)
  deriving DecidableEq, Repr

/-- The auto-completion task results. -/
structure AcpRes where
  score : AccBlock
  per_domain : List (Option String × AccBlock)
  per_completion_rate : List (String × AccBlock)
  per_other : List (String × AccBlock)
  deriving DecidableEq, Repr

/-- The auto-correction task results. -/
structure AcrRes where
  score : PRBlock
  per_domain : List (Option String × PRBlock)
  per_typo_type : List (Typo × PRBlock)
  per_number_of_typos : List (String × PRBlock)
  deriving DecidableEq, Repr

/-- The four task entries of the results dictionary, before the overall
score is attached (the `performances` sub-dictionaries, wall-clock and
memory formatting of profiling samples, are outside the modelled claims). -/
structure ResultsCore where
  nwp : TaskAcc
  acp : AcpRes
  acr : AcrRes
  swp : TaskAcc
  deriving DecidableEq, Repr

/-- `scorer.one_score`: the fixed weighted blend of the four task scores. -/
def one_score (results : ResultsCore) : ℚ :=
  let nwp := results.nwp.score.top3_accuracy
  let acp := results.acp.score.top3_accuracy
  let acr := results.acr.score.fscore
  let swp := results.swp.score.accuracy
  0.15 * nwp + 0.2 * acp + 0.4 * acr + 0.25 * swp

/-- The full results dictionary of `Scorer.score`. -/
structure ScoreResults where
  core : ResultsCore
  overall_score : ℚ
  deriving DecidableEq, Repr

/-- The grouping of `acr_c` by domain in `Scorer.score` (first
auto-correction loop): the per-domain no-typo and typo counts. -/
def acrGroupDomain (s : ScorerCounts) :
    List (Option String × Count) × List (Option String × Count) :=
  s.acr_c.foldl
    (fun (acc : List (Option String × Count) × List (Option String × Count)) kv1 =>
      kv1.2.foldl
        (fun acc2 kv2 =>
          if kv2.1 = TTKey.noTypo then (bump1 acc2.1 kv1.1 kv2.2, acc2.2)
          else (acc2.1, bump1 acc2.2 kv1.1 kv2.2))
        acc)
    ([], [])

/-- The grouping of `acr_c` by typo type in `Scorer.score` (second
auto-correction loop): the aggregate no-typo count and the per-typo-type
counts. -/
def acrGroupType (s : ScorerCounts) : Count × List (TTKey × Count) :=
  s.acr_c.foldl
    (fun (acc : Count × List (TTKey × Count)) kv1 =>
      kv1.2.foldl
        (fun acc2 kv2 =>
          if kv2.1 = TTKey.noTypo then (acc2.1 + kv2.2, acc2.2)
          else (acc2.1, bump1 acc2.2 kv2.1 kv2.2))
        acc)
    (0, [])

/-- The proportional redistribution of the aggregate no-typo count over the
typo-type buckets (`scorer.py:615`): `no_typo_c * (c.total /
typo_total_c.total)` for each bucket, where the division is Python division
and can raise `ZeroDivisionError` — the only unguarded division in
`Scorer.score`. -/
def acrRedistribute (s : ScorerCounts) : Except PyErr (List (TTKey × Count)) :=
  let tTotal := countSum ((acrGroupDomain s).2.map (·.2))
  let g := acrGroupType s
  g.2.mapM fun kv => do
    let q ← pyDivE (kv.2.total : ℚ) (tTotal.total : ℚ)
    pure (kv.1, Count.mul g.1 q)

/-- The pure part of `Scorer.score`: every grouping and metric derivation,
given the already-redistributed no-typo counts `ntPerT`. -/
def score_core (s : ScorerCounts) (beta : ℚ) (ntPerT : List (TTKey × Count)) :
    ResultsCore :=
  -- next-word prediction: group by domain
  let per := s.nwp_c.foldl (fun acc kv => bump1 acc kv.1 kv.2) []
  let total_c := countSum (per.map (·.2))
  let nwp : TaskAcc :=
    ⟨score_accuracy total_c, per.map (fun kv => (kv.1, score_accuracy kv.2))⟩
  -- auto-completion: group by domain, completion rate, has-typo
  let perD := acpRegroup s.acp_c (fun d _ _ => d)
  let acpTotal := countSum (perD.map (·.2))
  let perRate := acpRegroup s.acp_c (fun _ _ cr => cr)
  let perHasTypo := acpRegroup s.acp_c (fun _ ht _ => ht)
  let acp : AcpRes :=
    ⟨score_accuracy acpTotal,
     perD.map (fun kv => (kv.1, score_accuracy kv.2)),
     [("<25%", score_accuracy (countSum ((perRate.filter fun kv =>
         kv.1 < 1/4).map (·.2)))),
      ("25%~50%", score_accuracy (countSum ((perRate.filter fun kv =>
         1/4 ≤ kv.1 ∧ kv.1 < 1/2).map (·.2)))),
      ("50%~75%", score_accuracy (countSum ((perRate.filter fun kv =>
         1/2 ≤ kv.1 ∧ kv.1 < 3/4).map (·.2)))),
      (">75%", score_accuracy (countSum ((perRate.filter fun kv =>
         3/4 ≤ kv.1).map (·.2))))],
     [(WITHOUT_TYPO, score_accuracy (lookupD perHasTypo WITHOUT_TYPO 0)),
      (WITH_TYPO, score_accuracy (lookupD perHasTypo WITH_TYPO 0))]⟩
  -- auto-correction
  let gd := acrGroupDomain s
  let ntTotal := countSum (gd.1.map (·.2))
  let tTotal := countSum (gd.2.map (·.2))
  let tPerT := (acrGroupType s).2
  let acr : AcrRes :=
    ⟨score_precision_recall ntTotal tTotal beta,
     gd.1.map fun kv =>
       (kv.1, score_precision_recall kv.2 (lookupD gd.2 kv.1 0) beta),
     allTypos.map fun t =>
       (t, score_precision_recall (lookupD ntPerT (.one t) 0)
         (lookupD tPerT (.one t) 0) beta),
     [("1", score_precision_recall
         (countSum ((ntPerT.filter fun kv => kv.1.isOne).map (·.2)))
         (countSum ((tPerT.filter fun kv => kv.1.isOne).map (·.2))) beta),
      ("2", score_precision_recall (lookupD ntPerT (.many 2) 0)
         (lookupD tPerT (.many 2) 0) beta),
      ("3+", score_precision_recall
         (countSum ((ntPerT.filter fun kv => kv.1.isManyGt2).map (·.2)))
         (countSum ((tPerT.filter fun kv => kv.1.isManyGt2).map (·.2))) beta)]⟩
  -- swipe resolution: group by domain
  let perS := s.swp_c.foldl (fun acc kv => bump1 acc kv.1 kv.2) []
  let totalS := countSum (perS.map (·.2))
  let swp : TaskAcc :=
    ⟨score_accuracy totalS, perS.map (fun kv => (kv.1, score_accuracy kv.2))⟩
  ⟨nwp, acp, acr, swp⟩

/-- `Scorer.score`: derive every metric from the accumulated counts, then
attach `overall_score = one_score(results)`.  Raises (returns `.error`)
exactly when the redistribution divides by zero. -/
def score (s : ScorerCounts) (beta : ℚ) : Except PyErr ScoreResults :=
  match acrRedistribute s with
  | .error e => .error e
  | .ok ntPerT => .ok ⟨score_core s beta ntPerT, one_score (score_core s beta ntPerT)⟩

/-- Claim C5: on a freshly constructed Scorer with domains `["d1", "d2"]`
and no recorded prediction, `score` completes without any division by zero
(every conjunct asserts the result is `.ok`) and, for each of the four
tasks, the per-domain breakdown has exactly the keys `d1` and `d2`, with
every metric equal to `0` and `n = 0`. -/
theorem c5_empty_scorer_per_domain_all_zero :
    (score (scorer_init ["d1", "d2"]) DEFAULT_BETA).map
        (fun res => res.core.nwp.per_domain) =
      .ok [(some "d1", ⟨0, 0, 0⟩), (some "d2", ⟨0, 0, 0⟩)] ∧
    (score (scorer_init ["d1", "d2"]) DEFAULT_BETA).map
        (fun res => res.core.acp.per_domain) =
      .ok [(some "d1", ⟨0, 0, 0⟩), (some "d2", ⟨0, 0, 0⟩)] ∧
    (score (scorer_init ["d1", "d2"]) DEFAULT_BETA).map
        (fun res => res.core.acr.per_domain) =
      .ok [(some "d1", ⟨0, 0, 0, 0, 0, 0, 0, 0, 0, 0⟩),
           (some "d2", ⟨0, 0, 0, 0, 0, 0, 0, 0, 0, 0⟩)] ∧
    (score (scorer_init ["d1", "d2"]) DEFAULT_BETA).map
        (fun res => res.core.swp.per_domain) =
      .ok [(some "d1", ⟨0, 0, 0⟩), (some "d2", ⟨0, 0, 0⟩)] := by
  refine ⟨?_, ?_, ?_, ?_⟩ <;> with_unfolding_all decide

/-- `precision` (and by the same formula `recall`) is at most 1 for
non-negative counts. -/
theorem precision_le_one {tp fp : ℤ} (htp : 0 ≤ tp) (hfp : 0 ≤ fp) :
    precision tp fp ≤ 1 := by
  unfold precision precisionE pyDivE
  by_cases h : ((tp + fp : ℤ) : ℚ) = 0
  · simp [h]
  · simp only [h, if_false]
    have h0 : (0 : ℚ) ≤ (tp : ℚ) + (fp : ℚ) := by
      have htp' : (0 : ℚ) ≤ (tp : ℚ) := by exact_mod_cast htp
      have hfp' : (0 : ℚ) ≤ (fp : ℚ) := by exact_mod_cast hfp
      linarith
    have hpos : (0 : ℚ) < ((tp + fp : ℤ) : ℚ) := by
      push_cast
      push_cast at h
      exact lt_of_le_of_ne h0 (Ne.symm h)
    rw [div_le_one hpos]
    push_cast
    have : (0 : ℚ) ≤ (fp : ℚ) := by exact_mod_cast hfp
    linarith

/-- `precision` (and by the same formula `recall`) is non-negative for
non-negative counts. -/
theorem precision_nonneg {tp fp : ℤ} (htp : 0 ≤ tp) (hfp : 0 ≤ fp) :
    0 ≤ precision tp fp := by
  unfold precision precisionE pyDivE
  by_cases h : ((tp + fp : ℤ) : ℚ) = 0
  · simp [h]
  · simp only [h, if_false]
    apply div_nonneg
    · exact_mod_cast htp
    · push_cast
      have htp' : (0 : ℚ) ≤ (tp : ℚ) := by exact_mod_cast htp
      have hfp' : (0 : ℚ) ≤ (fp : ℚ) := by exact_mod_cast hfp
      linarith

/-- `recall'` is `precision` on `(tp, fn)`. -/
theorem recall_eq_precision (tp fn : ℤ) : recall' tp fn = precision tp fn := rfl

/-- The F-beta score lies between its two arguments when both are positive. -/
theorem fbeta_between {p r beta : ℚ} (hp : 0 < p) (hr : 0 < r) :
    min p r ≤ fbeta p r beta ∧ fbeta p r beta ≤ max p r := by
  have hb2 : (0 : ℚ) ≤ beta ^ 2 := sq_nonneg beta
  have hden : (0 : ℚ) < beta ^ 2 * p + r := by nlinarith
  unfold fbeta fbetaE pyDivE
  rw [if_neg hden.ne']
  constructor
  · rcases le_total p r with hpr | hpr
    · rw [min_eq_left hpr, le_div_iff₀ hden]
      nlinarith [mul_nonneg (mul_nonneg hb2 hp.le) (sub_nonneg.mpr hpr)]
    · rw [min_eq_right hpr, le_div_iff₀ hden]
      nlinarith [mul_nonneg hr.le (sub_nonneg.mpr hpr)]
  · rcases le_total p r with hpr | hpr
    · rw [max_eq_right hpr, div_le_iff₀ hden]
      nlinarith [mul_nonneg hr.le (sub_nonneg.mpr hpr)]
    · rw [max_eq_left hpr, div_le_iff₀ hden]
      nlinarith [mul_nonneg (mul_nonneg hb2 hp.le) (sub_nonneg.mpr hpr)]

/-- Claim C9: for counts with non-negative components and
`correct ≤ total` (no-typo count `ntc`, typo count `tc`), the precision and
recall that `Scorer._score_precision_recall` derives (`tp = tc.correct`,
`fp = ntc.total - ntc.correct`, `fn = tc.total - tc.correct`) are each at
most 1, and whenever both are nonzero the F-beta score at the default
`beta = 0.9` lies between them. -/
theorem c9_precision_recall_fscore_bounds (ntc tc : Count)
    (h1 : 0 ≤ ntc.correct) (h2 : ntc.correct ≤ ntc.total)
    (h3 : 0 ≤ tc.correct) (h4 : tc.correct ≤ tc.total) :
    precision tc.correct (ntc.total - ntc.correct) ≤ 1 ∧
    recall' tc.correct (tc.total - tc.correct) ≤ 1 ∧
    (precision tc.correct (ntc.total - ntc.correct) ≠ 0 →
      recall' tc.correct (tc.total - tc.correct) ≠ 0 →
      min (precision tc.correct (ntc.total - ntc.correct))
          (recall' tc.correct (tc.total - tc.correct)) ≤
        fbeta (precision tc.correct (ntc.total - ntc.correct))
          (recall' tc.correct (tc.total - tc.correct)) DEFAULT_BETA ∧
      fbeta (precision tc.correct (ntc.total - ntc.correct))
          (recall' tc.correct (tc.total - tc.correct)) DEFAULT_BETA ≤
        max (precision tc.correct (ntc.total - ntc.correct))
          (recall' tc.correct (tc.total - tc.correct))) := by
  have hfp : 0 ≤ ntc.total - ntc.correct := sub_nonneg.mpr h2
  have hfn : 0 ≤ tc.total - tc.correct := sub_nonneg.mpr h4
  refine ⟨precision_le_one h3 hfp, ?_, ?_⟩
  · rw [recall_eq_precision]
    exact precision_le_one h3 hfn
  · intro hpne hrne
    have hp : 0 < precision tc.correct (ntc.total - ntc.correct) :=
      lt_of_le_of_ne (precision_nonneg h3 hfp) (Ne.symm hpne)
    have hr : 0 < recall' tc.correct (tc.total - tc.correct) := by
      rw [recall_eq_precision]
      rw [recall_eq_precision] at hrne
      exact lt_of_le_of_ne (precision_nonneg h3 hfn) (Ne.symm hrne)
    exact fbeta_between hp hr

/-- Witness for C9 at `ntc = tc = ⟨1, 1, 2⟩` (so `tp = 1`, `fp = fn = 1`,
`precision = recall = 1/2`, both nonzero). -/
theorem c9_precision_recall_fscore_bounds_witness :
    precision 1 (2 - 1) ≤ 1 ∧
    recall' 1 (2 - 1) ≤ 1 ∧
    (min (precision 1 (2 - 1)) (recall' 1 (2 - 1)) ≤
        fbeta (precision 1 (2 - 1)) (recall' 1 (2 - 1)) DEFAULT_BETA ∧
      fbeta (precision 1 (2 - 1)) (recall' 1 (2 - 1)) DEFAULT_BETA ≤
        max (precision 1 (2 - 1)) (recall' 1 (2 - 1))) := by
  have h := c9_precision_recall_fscore_bounds ⟨1, 1, 2⟩ ⟨1, 1, 2⟩
    (by decide) (by decide) (by decide) (by decide)
  exact ⟨h.1, h.2.1,
    h.2.2 (by with_unfolding_all decide) (by with_unfolding_all decide)⟩

/-- Claim C3: with `Typo.TRANSPOSE_CHAR` probability 1 and every other
probability 0, for every valid random source, `_introduce_typos("hi")`
(both characters on keyboard layer 0) returns `"ih"` with exactly one
TRANSPOSE_CHAR label — the transposed-in `h` is emitted unchanged at its
new (last) position, receiving no further edit — while
`_introduce_typos("Hi")` (`H` on layer 1, `i` on layer 0) returns `"Hi"`
unchanged with zero labels.  Both runs consume exactly the two uniform
draws of the per-character event sampling. -/
theorem c3_transpose_same_layer_only (r : RSource) (h : ValidUnif r) :
    introduce_typos nmTrans "hi" false r st0 = ("ih", [Typo.TRANSPOSE_CHAR], ⟨2, 0⟩) ∧
    introduce_typos nmTrans "Hi" false r st0 = ("Hi", [], ⟨2, 0⟩) := by
  have h0 := h 0
  have h1 := h 1
  have h0n : ¬ (r.unif 0 < 0) := not_lt.mpr h0.1
  have h1n : ¬ (r.unif 1 < 0) := not_lt.mpr h1.1
  constructor <;>
    simp [introduce_typos, itLoop, itStep, sample_among, sample, drawU, pickCum,
      nmTrans, probsOnly, kbTest, kbTestInfo, layer0Chars, layer1Chars,
      strip_accents, pyStrIsUpper, pyIsNumeric, pyIsSpace, pyIsPunct,
      FRONT_DELETION_MULTIPLIER, DELETIONS, ADDITIONS, st0, h0.1, h0.2, h1.1, h1.2,
      h0n, h1n, RState.mk.injEq]

/-- Witness for C3 at the constant uniform source `1/2`. -/
theorem c3_transpose_same_layer_only_witness :
    introduce_typos nmTrans "hi" false (srcConst (1/2) 0) st0 =
      ("ih", [Typo.TRANSPOSE_CHAR], ⟨2, 0⟩) ∧
    introduce_typos nmTrans "Hi" false (srcConst (1/2) 0) st0 = ("Hi", [], ⟨2, 0⟩) :=
  c3_transpose_same_layer_only (srcConst (1/2) 0)
    (fun _ => ⟨by norm_num [srcConst], by norm_num [srcConst]⟩)

/-- Counterexample to C2 as stated: with `Typo.DELETE_CHAR` probability 1
and all others 0, `_introduce_typos("hi")` does NOT always return `"i"`
with one DELETE_CHAR label — at the uniform draw `1/2` (at or above the
front-deletion-damped probability `1 × FRONT_DELETION_MULTIPLIER = 0.36`)
it returns `"hi"` with no label at all. -/
theorem c2_delete_char_counterexample :
    (introduce_typos nmDel "hi" false (srcConst (1/2) 0) st0).1 = "hi" ∧
    (introduce_typos nmDel "hi" false (srcConst (1/2) 0) st0).2.1 = [] := by
  constructor <;> with_unfolding_all decide

/-- Claim C2, amended: with `Typo.DELETE_CHAR` probability 1 and every
other probability 0, for every valid random source,
`_introduce_typos("hi")` returns `"i"` with exactly one DELETE_CHAR label
exactly when the per-character uniform draw falls below the
front-deletion-damped probability `1 × FRONT_DELETION_MULTIPLIER = 36/100`,
and returns `"hi"` with zero labels otherwise.  In particular deletion is
never applied to the final character (`"h"` is never the result): the
last-character deletion filter removes DELETE_CHAR at position 1. -/
theorem c2_delete_char_damped (r : RSource) (h : ValidUnif r) :
    (r.unif 0 < 36/100 →
      introduce_typos nmDel "hi" false r st0 = ("i", [Typo.DELETE_CHAR], ⟨2, 0⟩)) ∧
    (36/100 ≤ r.unif 0 →
      introduce_typos nmDel "hi" false r st0 = ("hi", [], ⟨2, 0⟩)) := by
  have h0 := h 0
  have h1 := h 1
  have h0n : ¬ (r.unif 0 < 0) := not_lt.mpr h0.1
  have h1n : ¬ (r.unif 1 < 0) := not_lt.mpr h1.1
  constructor
  · intro hlt
    simp [introduce_typos, itLoop, itStep, sample_among, sample, drawU, pickCum,
      nmDel, probsOnly, kbTest, kbTestInfo, layer0Chars, layer1Chars,
      strip_accents, pyStrIsUpper, pyIsNumeric, pyIsSpace, pyIsPunct,
      FRONT_DELETION_MULTIPLIER, DELETIONS, ADDITIONS, st0, h0.1, h0.2, h1.1, h1.2,
      h0n, h1n, hlt, RState.mk.injEq]
  · intro hge
    have hnlt : ¬ (r.unif 0 < 36/100) := not_lt.mpr hge
    simp [introduce_typos, itLoop, itStep, sample_among, sample, drawU, pickCum,
      nmDel, probsOnly, kbTest, kbTestInfo, layer0Chars, layer1Chars,
      strip_accents, pyStrIsUpper, pyIsNumeric, pyIsSpace, pyIsPunct,
      FRONT_DELETION_MULTIPLIER, DELETIONS, ADDITIONS, st0, h0.1, h0.2, h1.1, h1.2,
      h0n, h1n, hnlt, RState.mk.injEq]

/-- Witness for C2 (amended) in both branches: draws `1/10 < 36/100` and
`1/2 ≥ 36/100`. -/
theorem c2_delete_char_damped_witness :
    introduce_typos nmDel "hi" false (srcConst (1/10) 0) st0 =
      ("i", [Typo.DELETE_CHAR], ⟨2, 0⟩) ∧
    introduce_typos nmDel "hi" false (srcConst (1/2) 0) st0 = ("hi", [], ⟨2, 0⟩) :=
  ⟨(c2_delete_char_damped (srcConst (1/10) 0)
      (fun _ => ⟨by norm_num [srcConst], by norm_num [srcConst]⟩)).1
      (by norm_num [srcConst]),
   (c2_delete_char_damped (srcConst (1/2) 0)
      (fun _ => ⟨by norm_num [srcConst], by norm_num [srcConst]⟩)).2
      (by norm_num [srcConst])⟩

/-- A fuzzy-typed keystroke is non-null exactly when the character resolves
to the default keyboard layer (layer 0); characters off the keyboard or on
other layers always yield a null keystroke, fuzzed or not. -/
theorem fuzzy_loop_keystrokes_isSome (nm : NoiseParams) (r : RSource) (ef : Bool)
    (cs : List Char) (st : RState) :
    ((fuzzy_type_loop nm r ef cs st).1).map Option.isSome =
      cs.map fun c =>
        match nm.kb.keyInfo c with
        | some ki => decide (ki.klayer = 0)
        | none => false := by
  induction cs generalizing st with
  | nil => simp [fuzzy_type_loop]
  | cons c cs ih =>
    rcases hki : nm.kb.keyInfo c with _ | ki
    · simp only [fuzzy_type_loop, hki]
      rcases hr : fuzzy_type_loop nm r ef cs st with ⟨ks, out, ty, st2⟩
      have := ih st
      rw [hr] at this
      simpa [hki] using this
    · simp only [fuzzy_type_loop, hki]
      rcases hpt : (if ef ∨ ki.klayer ≠ 0 then ((ki.cx, ki.cy), st)
        else
          let (z1, sta) := drawG r st
          let (z2, stb) := drawG r sta
          ((ki.cx + nm.xOffset + ki.width / 2 / nm.xRatio * z1,
            ki.cy + nm.yOffset + ki.height / 2 / nm.yRatio * z2), stb)) with ⟨pt, st1⟩
      rcases hr : fuzzy_type_loop nm r ef cs st1 with ⟨ks, out, ty, st2⟩
      have := ih st1
      rw [hr] at this
      simp only at this
      by_cases h0 : ki.klayer = 0 <;> simp [h0, hr, this, hki]

/-- Error-free fuzzy typing yields exactly the key-center keystroke for each
character on the default layer, and a null keystroke otherwise. -/
theorem fuzzy_loop_error_free_keystrokes (nm : NoiseParams) (r : RSource)
    (cs : List Char) (st : RState) :
    (fuzzy_type_loop nm r true cs st).1 =
      cs.map fun c =>
        match nm.kb.keyInfo c with
        | some ki => if ki.klayer = 0 then some (ki.cx, ki.cy) else none
        | none => none := by
  induction cs generalizing st with
  | nil => simp [fuzzy_type_loop]
  | cons c cs ih =>
    rcases hki : nm.kb.keyInfo c with _ | ki
    · simp only [fuzzy_type_loop, hki]
      rcases hr : fuzzy_type_loop nm r true cs st with ⟨ks, out, ty, st2⟩
      have := ih st
      rw [hr] at this
      simpa [hki] using this
    · simp only [fuzzy_type_loop, hki, true_or, if_pos]
      rcases hr : fuzzy_type_loop nm r true cs st with ⟨ks, out, ty, st2⟩
      have := ih st
      rw [hr] at this
      simp only at this
      simp [hr, this, hki]

/-- Two lists with equal images under `map` have equal `all` values. -/
theorem all_eq_all_of_map_eq {α β : Type} {l : List α} {l2 : List β}
    (p : α → Bool) (q : β → Bool) (h : l.map p = l2.map q) : l.all p = l2.all q := by
  induction l generalizing l2 with
  | nil =>
    cases l2 with
    | nil => rfl
    | cons b t2 => simp at h
  | cons a t ih =>
    cases l2 with
    | nil => simp at h
    | cons b t2 =>
      simp only [List.map_cons, List.cons.injEq] at h
      simp [List.all_cons, h.1, ih h.2]

/-- The null/non-null pattern of the keystrokes `swipe` feeds into gesture
generation, per character of the word. -/
theorem swipe_keystrokes_isSome_map (nm : NoiseParams) (word : String)
    (r : RSource) (st : RState) :
    (swipe_keystrokes nm word r st).map Option.isSome =
      word.toList.map fun c =>
        match nm.kb.keyInfo c with
        | some ki => decide (ki.klayer = 0)
        | none => false := by
  unfold swipe_keystrokes fuzzy_type
  rcases hr : fuzzy_type_loop nm r (!is_correctable word) word.toList st with
    ⟨ks, out, ty, st2⟩
  have := fuzzy_loop_keystrokes_isSome nm r (!is_correctable word) word.toList st
  rw [hr] at this
  simpa using this

/-- Claim C1, amended: `swipe` feeds ideal (exact key-center) keystrokes
into gesture generation only when the word is NOT correctable (then
`error_free=True` is passed to the fuzzy typing): each character on the
default layer maps to its exact key center and every other character to a
null keystroke.  For correctable words the keystrokes are Gaussian-fuzzed
(see the counterexample). -/
theorem c1_swipe_ideal_keystrokes_when_not_correctable (nm : NoiseParams)
    (word : String) (r : RSource) (st : RState)
    (h : is_correctable word = false) :
    swipe_keystrokes nm word r st =
      word.toList.map fun c =>
        match nm.kb.keyInfo c with
        | some ki => if ki.klayer = 0 then some (ki.cx, ki.cy) else none
        | none => none := by
  unfold swipe_keystrokes fuzzy_type
  rw [h]
  rcases hr : fuzzy_type_loop nm r (!false) word.toList st with ⟨ks, out, ty, st2⟩
  have := fuzzy_loop_error_free_keystrokes nm r word.toList st
  rw [show (!false) = true from rfl] at hr
  rw [hr] at this
  simpa [hr] using this

/-- Witness for C1 (amended) at the non-correctable word `".."`: both
keystrokes are the exact center of the point key. -/
theorem c1_swipe_ideal_keystrokes_when_not_correctable_witness :
    is_correctable ".." = false ∧
    swipe_keystrokes nmDefault ".." (srcConst 0 0) st0 =
      "..".toList.map fun c =>
        match nmDefault.kb.keyInfo c with
        | some ki => if ki.klayer = 0 then some (ki.cx, ki.cy) else none
        | none => none := by
  have h : is_correctable ".." = false := by with_unfolding_all decide
  exact ⟨h,
    c1_swipe_ideal_keystrokes_when_not_correctable nmDefault ".." (srcConst 0 0) st0 h⟩

/-- Counterexample to C1 as stated: for the correctable word `"hi"`
(`error_free=False`), the keystrokes `swipe` feeds into gesture generation
are Gaussian samples around the key centers, not the exact centers — with
standard-normal draws equal to 1 each keystroke is offset by
`σ = (width/2)/DEFAULT_SIGMA_RATIO = 1/6` on both axes. -/
theorem c1_swipe_fuzzed_counterexample :
    is_correctable "hi" = true ∧
    (kbTest.keyInfo 'h').map (fun ki => (ki.cx, ki.cy)) = some (15/2, 1/2) ∧
    (kbTest.keyInfo 'i').map (fun ki => (ki.cx, ki.cy)) = some (17/2, 1/2) ∧
    swipe_keystrokes nmDefault "hi" (srcConst (1/2) 1) st0 =
      [some (15/2 + 1/6, 1/2 + 1/6), some (17/2 + 1/6, 1/2 + 1/6)] ∧
    swipe_keystrokes nmDefault "hi" (srcConst (1/2) 1) st0 ≠
      [some (15/2, 1/2), some (17/2, 1/2)] := by
  refine ⟨?_, ?_, ?_, ?_, ?_⟩ <;> with_unfolding_all decide

/-- Claim C4, amended: `swipe` returns a gesture exactly when the word has
at least two characters and every character resolves to the default layer
(equivalently: no keystroke is null); it returns `None` whenever ANY
keystroke is null — even if two or more usable keystrokes remain — and
correctability only selects error-free typing, it does not by itself
force `None`. -/
theorem c4_swipe_none_iff_null_keystroke_or_short (nm : NoiseParams)
    (word : String) (r : RSource) (st : RState) :
    (swipe nm word r st).isSome ↔
      1 < word.toList.length ∧
        ∀ c ∈ word.toList, ∃ ki, nm.kb.keyInfo c = some ki ∧ ki.klayer = 0 := by
  have hmap := swipe_keystrokes_isSome_map nm word r st
  have hlen : (swipe_keystrokes nm word r st).length = word.toList.length := by
    have := congrArg List.length hmap
    simpa using this
  have hall : ((swipe_keystrokes nm word r st).all Option.isSome = true) ↔
      ∀ c ∈ word.toList, ∃ ki, nm.kb.keyInfo c = some ki ∧ ki.klayer = 0 := by
    rw [all_eq_all_of_map_eq _ _ hmap, List.all_eq_true]
    constructor
    · intro hx c hc
      have := hx c hc
      rcases hki : nm.kb.keyInfo c with _ | ki
      · rw [hki] at this
        simp at this
      · rw [hki] at this
        simp at this
        exact ⟨ki, rfl, this⟩
    · intro hx c hc
      rcases hx c hc with ⟨ki, hki, h0⟩
      simp [hki, h0]
  simp only [swipe]
  split_ifs with hc
  · exact ⟨fun _ => ⟨hlen ▸ hc.2, hall.mp hc.1⟩, fun _ => rfl⟩
  · exact ⟨fun h' => by simp at h',
      fun hrhs => absurd ⟨hall.mpr hrhs.2, hlen ▸ hrhs.1⟩ hc⟩

/-- Counterexample to C4 as stated: for `"aBc"` (`B` on layer 1), the
fuzzily-typed word yields two usable (non-null) keystrokes — more than
one — yet `swipe` returns `None`, because `all(keystrokes)` requires every
keystroke to be non-null. -/
theorem c4_swipe_counterexample :
    ((swipe_keystrokes nmDefault "aBc" (srcConst 0 0) st0).filter
        Option.isSome).length = 2 ∧
    swipe nmDefault "aBc" (srcConst 0 0) st0 = none := by
  constructor <;> with_unfolding_all decide

instance : AddCommMonoid Count where
  add_assoc a b c := by
    show Count.add (Count.add a b) c = Count.add a (Count.add b c)
    simp [Count.add, add_assoc]
  zero_add a := by
    show Count.add {} a = a
    simp [Count.add]
  add_zero a := by
    show Count.add a {} = a
    simp [Count.add]
  add_comm a b := by
    show Count.add a b = Count.add b a
    simp [Count.add, add_comm]
  nsmul := nsmulRec

section AssocLookup

variable {κ : Type} [DecidableEq κ]

/-- Lookup after an in-place set: the new value at the written key, the old
value elsewhere. -/
theorem lookupD_setK {V : Type} (m : List (κ × V)) (k' : κ) (v : V) (k : κ) (d : V) :
    lookupD (setK m k' v) k d = if k = k' then v else lookupD m k d := by
  induction m with
  | nil => simp [setK, lookupD]
  | cons hd tl ih =>
    obtain ⟨k2, v2⟩ := hd
    by_cases h : k' = k2
    · subst h
      simp only [setK, if_pos rfl]
      by_cases hk : k = k' <;> simp [lookupD, hk]
    · simp only [setK, if_neg h]
      by_cases hk : k = k2
      · subst hk
        have hkk : ¬ k = k' := fun hh => h hh.symm
        simp [lookupD, hkk]
      · simp [lookupD, hk, ih]

/-- Lookup of an unbound key yields the default. -/
theorem lookupD_of_not_mem {V : Type} (m : List (κ × V)) (k : κ) (d : V)
    (h : k ∉ m.map Prod.fst) : lookupD m k d = d := by
  induction m with
  | nil => rfl
  | cons hd tl ih =>
    obtain ⟨k2, v2⟩ := hd
    simp only [List.map_cons, List.mem_cons, not_or] at h
    simp only [lookupD, if_neg h.1]
    exact ih h.2

/-- Lookup after a `defaultdict` `+=` bump. -/
theorem lookupD_bump1 (m : List (κ × Count)) (k' : κ) (c : Count) (k : κ) :
    lookupD (bump1 m k' c) k 0 = lookupD m k 0 + if k = k' then c else 0 := by
  unfold bump1
  rw [lookupD_setK]
  by_cases h : k = k'
  · subst h
    simp
  · simp [h]

/-- The one-layer `update` adds count lookups pointwise (the merged-in dict
has Python-dict keys, hence no duplicates). -/
theorem lookupD_upd1 (d1 d2 : List (κ × Count)) (k : κ)
    (h : (d2.map Prod.fst).Nodup) :
    lookupD (upd1 d1 d2) k 0 = lookupD d1 k 0 + lookupD d2 k 0 := by
  induction d2 generalizing d1 with
  | nil => simp [upd1, lookupD]
  | cons hd tl ih =>
    obtain ⟨k2, c2⟩ := hd
    simp only [List.map_cons, List.nodup_cons] at h
    rw [show upd1 d1 ((k2, c2) :: tl) = upd1 (bump1 d1 k2 c2) tl from rfl,
        ih _ h.2, lookupD_bump1]
    by_cases hk : k = k2
    · subst hk
      rw [lookupD_of_not_mem tl k 0 h.1]
      simp [lookupD]
    · simp [lookupD, hk]

/-- The two-layer `update` adds count lookups pointwise. -/
theorem lookupD_upd2 {κ2 : Type} [DecidableEq κ2]
    (d1 d2 : List (κ × List (κ2 × Count))) (k : κ) (k2 : κ2)
    (h1 : (d2.map Prod.fst).Nodup) (h2 : ∀ kv ∈ d2, (kv.2.map Prod.fst).Nodup) :
    lookupD (lookupD (upd2 d1 d2) k []) k2 0 =
      lookupD (lookupD d1 k []) k2 0 + lookupD (lookupD d2 k []) k2 0 := by
  induction d2 generalizing d1 with
  | nil => simp [upd2, lookupD]
  | cons hd tl ih =>
    obtain ⟨kk, m2⟩ := hd
    simp only [List.map_cons, List.nodup_cons] at h1
    rw [show upd2 d1 ((kk, m2) :: tl) =
          upd2 (setK d1 kk (upd1 (lookupD d1 kk []) m2)) tl from rfl,
        ih _ h1.2 (fun kv hkv => h2 kv (List.mem_cons_of_mem _ hkv))]
    rw [lookupD_setK]
    by_cases hk : k = kk
    · subst hk
      rw [if_pos rfl,
          lookupD_upd1 _ _ _ (h2 (k, m2) (List.mem_cons_self _ _)),
          lookupD_of_not_mem tl k [] h1.1]
      simp [lookupD]
    · simp [lookupD, hk]

/-- The three-layer `update` adds count lookups pointwise. -/
theorem lookupD_upd3 {κ2 κ3 : Type} [DecidableEq κ2] [DecidableEq κ3]
    (d1 d2 : List (κ × List (κ2 × List (κ3 × Count)))) (k : κ) (k2 : κ2) (k3 : κ3)
    (h1 : (d2.map Prod.fst).Nodup)
    (h2 : ∀ kv ∈ d2, (kv.2.map Prod.fst).Nodup ∧
      ∀ kv2 ∈ kv.2, (kv2.2.map Prod.fst).Nodup) :
    lookupD (lookupD (lookupD (upd3 d1 d2) k []) k2 []) k3 0 =
      lookupD (lookupD (lookupD d1 k []) k2 []) k3 0 +
        lookupD (lookupD (lookupD d2 k []) k2 []) k3 0 := by
  induction d2 generalizing d1 with
  | nil => simp [upd3, lookupD]
  | cons hd tl ih =>
    obtain ⟨kk, m2⟩ := hd
    simp only [List.map_cons, List.nodup_cons] at h1
    rw [show upd3 d1 ((kk, m2) :: tl) =
          upd3 (setK d1 kk (upd2 (lookupD d1 kk []) m2)) tl from rfl,
        ih _ h1.2 (fun kv hkv => h2 kv (List.mem_cons_of_mem _ hkv))]
    rw [lookupD_setK]
    by_cases hk : k = kk
    · subst hk
      have hm2 := h2 (k, m2) (List.mem_cons_self _ _)
      rw [if_pos rfl, lookupD_upd2 _ _ _ _ hm2.1 hm2.2,
          lookupD_of_not_mem tl k [] h1.1]
      simp [lookupD]
    · simp [lookupD, hk]

end AssocLookup

/-- Well-formedness of a Scorer's count structures: at every dict level the
keys are distinct, as Python dicts guarantee. -/
def SWF (s : ScorerCounts) : Prop :=
  (s.nwp_c.map Prod.fst).Nodup ∧
  ((s.acp_c.map Prod.fst).Nodup ∧
    ∀ kv ∈ s.acp_c, (kv.2.map Prod.fst).Nodup ∧
      ∀ kv2 ∈ kv.2, (kv2.2.map Prod.fst).Nodup) ∧
  ((s.acr_c.map Prod.fst).Nodup ∧ ∀ kv ∈ s.acr_c, (kv.2.map Prod.fst).Nodup) ∧
  (s.swp_c.map Prod.fst).Nodup

/-- Count lookup into the next-word-prediction structure. -/
def nwpLook (s : ScorerCounts) (k : Option String) : Count := lookupD s.nwp_c k 0

/-- Count lookup into the auto-completion structure. -/
def acpLook (s : ScorerCounts) (k : Option String) (ht : String) (cr : ℚ) : Count :=
  lookupD (lookupD (lookupD s.acp_c k []) ht []) cr 0

/-- Count lookup into the auto-correction structure. -/
def acrLook (s : ScorerCounts) (k : Option String) (tk : TTKey) : Count :=
  lookupD (lookupD s.acr_c k []) tk 0

/-- Count lookup into the swipe-resolution structure. -/
def swpLook (s : ScorerCounts) (k : Option String) : Count := lookupD s.swp_c k 0

/-- `scorer_add` adds every count lookup pointwise. -/
theorem scorer_add_look (a b : ScorerCounts) (h : SWF b) :
    (∀ k, nwpLook (scorer_add a b) k = nwpLook a k + nwpLook b k) ∧
    (∀ k ht cr, acpLook (scorer_add a b) k ht cr =
      acpLook a k ht cr + acpLook b k ht cr) ∧
    (∀ k tk, acrLook (scorer_add a b) k tk = acrLook a k tk + acrLook b k tk) ∧
    (∀ k, swpLook (scorer_add a b) k = swpLook a k + swpLook b k) := by
  obtain ⟨h1, h2, h3, h4⟩ := h
  exact ⟨fun k => lookupD_upd1 _ _ _ h1,
         fun k ht cr => lookupD_upd3 _ _ _ _ _ h2.1 h2.2,
         fun k tk => lookupD_upd2 _ _ _ _ h3.1 h3.2,
         fun k => lookupD_upd1 _ _ _ h4⟩

/-- Folding `scorer_add` over a list of well-formed scorers accumulates each
lookup as a sum over the list. -/
theorem foldl_scorer_add_look (f : ScorerCounts → Count)
    (hadd : ∀ a b, SWF b → f (scorer_add a b) = f a + f b)
    (ss : List ScorerCounts) (acc : ScorerCounts) (h : ∀ s ∈ ss, SWF s) :
    f (ss.foldl scorer_add acc) = f acc + (ss.map f).sum := by
  induction ss generalizing acc with
  | nil => simp
  | cons s tl ih =>
    simp only [List.foldl_cons, List.map_cons, List.sum_cons]
    rw [ih (scorer_add acc s) (fun x hx => h x (List.mem_cons_of_mem _ hx)),
        hadd acc s (h s (List.mem_cons_self _ _)), add_assoc]

/-- Claim C6: `Count` addition is commutative and associative with the
all-zero `Count` as identity and is component-wise; consequently merging
the same collection of well-formed per-sentence Scorers into an accumulator
via `Scorer.add` in any order yields the same nested count structures
(every lookup at every path agrees). -/
theorem c6_count_merge_commutative :
    (∀ a b : Count, a + b = b + a) ∧
    (∀ a b c : Count, a + b + c = a + (b + c)) ∧
    (∀ a : Count, a + 0 = a ∧ 0 + a = a) ∧
    (∀ a b : Count, (a + b).total = a.total + b.total ∧
      (a + b).correct = a.correct + b.correct ∧
      (a + b).correct_3 = a.correct_3 + b.correct_3) ∧
    (∀ (ss ts : List ScorerCounts) (acc : ScorerCounts),
      ss.Perm ts → (∀ s ∈ ss, SWF s) →
      (∀ k, nwpLook (ss.foldl scorer_add acc) k = nwpLook (ts.foldl scorer_add acc) k) ∧
      (∀ k ht cr, acpLook (ss.foldl scorer_add acc) k ht cr =
        acpLook (ts.foldl scorer_add acc) k ht cr) ∧
      (∀ k tk, acrLook (ss.foldl scorer_add acc) k tk =
        acrLook (ts.foldl scorer_add acc) k tk) ∧
      (∀ k, swpLook (ss.foldl scorer_add acc) k =
        swpLook (ts.foldl scorer_add acc) k)) := by
  refine ⟨fun a b => add_comm a b, fun a b c => add_assoc a b c,
    fun a => ⟨add_zero a, zero_add a⟩, fun a b => ⟨rfl, rfl, rfl⟩, ?_⟩
  intro ss ts acc hperm hwf
  have hwf2 : ∀ s ∈ ts, SWF s := fun s hs => hwf s (hperm.mem_iff.mpr hs)
  refine ⟨fun k => ?_, fun k ht cr => ?_, fun k tk => ?_, fun k => ?_⟩
  · rw [foldl_scorer_add_look (fun s => nwpLook s k)
        (fun a b hb => (scorer_add_look a b hb).1 k) ss acc hwf,
      foldl_scorer_add_look (fun s => nwpLook s k)
        (fun a b hb => (scorer_add_look a b hb).1 k) ts acc hwf2,
      (hperm.map _).sum_eq]
  · rw [foldl_scorer_add_look (fun s => acpLook s k ht cr)
        (fun a b hb => (scorer_add_look a b hb).2.1 k ht cr) ss acc hwf,
      foldl_scorer_add_look (fun s => acpLook s k ht cr)
        (fun a b hb => (scorer_add_look a b hb).2.1 k ht cr) ts acc hwf2,
      (hperm.map _).sum_eq]
  · rw [foldl_scorer_add_look (fun s => acrLook s k tk)
        (fun a b hb => (scorer_add_look a b hb).2.2.1 k tk) ss acc hwf,
      foldl_scorer_add_look (fun s => acrLook s k tk)
        (fun a b hb => (scorer_add_look a b hb).2.2.1 k tk) ts acc hwf2,
      (hperm.map _).sum_eq]
  · rw [foldl_scorer_add_look (fun s => swpLook s k)
        (fun a b hb => (scorer_add_look a b hb).2.2.2 k) ss acc hwf,
      foldl_scorer_add_look (fun s => swpLook s k)
        (fun a b hb => (scorer_add_look a b hb).2.2.2 k) ts acc hwf2,
      (hperm.map _).sum_eq]

/-- A small per-sentence Scorer state for the C6 witness. -/
def scorerWitA : ScorerCounts :=
  ⟨[(some "a", ⟨1, 2, 3⟩)], [], [(some "a", [(.noTypo, ⟨1, 1, 1⟩)])], [(some "a", ⟨2, 2, 2⟩)]⟩

/-- A second per-sentence Scorer state for the C6 witness. -/
def scorerWitB : ScorerCounts :=
  ⟨[(some "b", ⟨4, 5, 6⟩), (some "a", ⟨1, 0, 1⟩)], [],
   [(some "a", [(.one .DELETE_CHAR, ⟨0, 1, 2⟩)])], []⟩

/-- Witness for C6: merging the two concrete scorers in either order into
the fresh accumulator yields the same lookups. -/
theorem c6_count_merge_commutative_witness :
    ((⟨1, 2, 3⟩ : Count) + ⟨4, 5, 6⟩ = (⟨4, 5, 6⟩ : Count) + ⟨1, 2, 3⟩) ∧
    nwpLook ([scorerWitA, scorerWitB].foldl scorer_add (scorer_init ["a"])) (some "a") =
      nwpLook ([scorerWitB, scorerWitA].foldl scorer_add (scorer_init ["a"])) (some "a") ∧
    acrLook ([scorerWitA, scorerWitB].foldl scorer_add (scorer_init ["a"])) (some "a")
        (.one .DELETE_CHAR) =
      acrLook ([scorerWitB, scorerWitA].foldl scorer_add (scorer_init ["a"])) (some "a")
        (.one .DELETE_CHAR) := by
  have h := c6_count_merge_commutative
  have hperm : [scorerWitA, scorerWitB].Perm [scorerWitB, scorerWitA] :=
    List.Perm.swap scorerWitB scorerWitA []
  have hwf : ∀ s ∈ [scorerWitA, scorerWitB], SWF s := by
    intro s hs
    simp only [List.mem_cons, List.not_mem_nil, or_false] at hs
    rcases hs with rfl | rfl <;>
      exact ⟨by decide, ⟨by decide, by decide⟩, ⟨by decide, by decide⟩, by decide⟩
  have h5 := h.2.2.2.2 [scorerWitA, scorerWitB] [scorerWitB, scorerWitA]
    (scorer_init ["a"]) hperm hwf
  exact ⟨h.1 ⟨1, 2, 3⟩ ⟨4, 5, 6⟩, h5.1 (some "a"), h5.2.2.1 (some "a") (.one .DELETE_CHAR)⟩

theorem itStep_space_no_label (nm : NoiseParams) (r : RSource) (st : RState)
    (h : (itStep nm r [' '] 0 [' '] st).2.1 = []) :
    (itStep nm r [' '] 0 [' '] st).1 = [' '] := by
  unfold itStep at h ⊢
  have e2 : strip_accents ' ' = ' ' := by decide
  have e3 : (' ').isUpper = false := by decide
  have e4 : pyStrIsUpper [' '] = false := by decide
  by_cases hacc : (' ' ∈ nm.kb.letterAccents)
  · rcases hsa : sample (nm.probs Typo.SIMPLIFY_ACCENT) r st with ⟨sa, st1⟩
    cases sa
    · simp [hacc, hsa, e2, e3, e4] at h ⊢
      split at h
      · simp at h
      · rename_i heq
        rw [heq]
    · simp [hacc, hsa] at h
  · simp [hacc, e3, e4] at h ⊢
    split at h
    · simp at h
    · rename_i heq
      rw [heq]

theorem introduce_typos_space_clean (nm : NoiseParams) (r : RSource) (st : RState)
    (h : (introduce_typos nm " " false r st).2.1 = []) :
    (introduce_typos nm " " false r st).1 = " " := by
  have ht : " ".toList = [' '] := rfl
  have hl : " ".length = 1 := rfl
  unfold introduce_typos at h ⊢
  have h01 : 0 < ([' '] : List Char).length := by decide
  rcases hfind : nm.commonTypos.find? (fun kv => kv.1 = " ") with _ | kv
  · simp only [hfind, ht, hl, Bool.false_eq_true, if_false, itLoop] at h ⊢
    simp only [if_pos h01, List.append_nil] at h ⊢
    rw [itStep_space_no_label nm r st h]
  · simp only [hfind, ht, hl, Bool.false_eq_true, if_false, itLoop] at h ⊢
    cases hb : (sample (nm.probs .COMMON_TYPO) r st).1
    · simp only [hb, Bool.false_eq_true, if_false, if_pos h01, List.append_nil] at h ⊢
      rw [itStep_space_no_label nm r _ h]
    · simp only [hb, if_true, ite_true] at h
      cases h

theorem fuzzy_type_space_clean (nm : NoiseParams) (r : RSource) (st : RState)
    (h : (fuzzy_type nm " " false r st).2.2.1 = []) :
    (fuzzy_type nm " " false r st).2.1 = " " := by
  have ht : " ".toList = [' '] := rfl
  unfold fuzzy_type at h ⊢
  simp only [ht, fuzzy_type_loop] at h ⊢
  rcases hki : nm.kb.keyInfo ' ' with _ | ki
  · simp [hki] at h ⊢
  · simp only [hki, List.append_nil] at h ⊢
    by_cases hcl : (false = true ∨ ki.klayer ≠ 0)
    · simp only [if_pos hcl] at h ⊢
      split at h
      · simp at h
      · rename_i hne
        simp only [ne_eq, not_not] at hne
        simp [hne]
    · simp only [if_neg hcl] at h ⊢
      split at h
      · simp at h
      · rename_i hne
        simp only [ne_eq, not_not] at hne
        simp [hne]

/-- A space typed with no edit-layer and no fuzzy-layer typo comes out as
exactly the single space character. -/
theorem space_out_clean (nm : NoiseParams) (r : RSource) (st : RState)
    (h1 : (space_out nm r st).ty1 = []) (h2 : (space_out nm r st).ty2 = []) :
    (space_out nm r st).typed = " " := by
  simp only [space_out] at h1 h2 ⊢
  have hnsp := introduce_typos_space_clean nm r st h1
  rw [hnsp] at h2 ⊢
  exact fuzzy_type_space_clean nm r _ h2

/-- Claim C10: in `type_till_space` on a non-empty word list, when the
separating space after the typed word is clean (no edit-layer typo
`sp_typo_1` and no fuzzy-layer typo `sp_typo_2`), the loop stops and the
clean space's keystrokes and character — exactly one plain `" "` — are
excluded from the returned outputs, which end with the word's own output;
when the space is noisy, its keystrokes, characters and labels ARE included
and typing continues with the next word (or stops when the list is
exhausted). -/
theorem c10_clean_space_excluded (nm : NoiseParams) (w : String) (ws : List String)
    (r : RSource) (st : RState) :
    ((space_out nm r (word_out nm w r st).st).ty1 = [] →
      (space_out nm r (word_out nm w r st).st).ty2 = [] →
      type_till_space nm (w :: ws) r st =
        some ((word_out nm w r st).ks, (word_out nm w r st).typed, 1,
          (word_out nm w r st).typos) ∧
        (space_out nm r (word_out nm w r st).st).typed = " ") ∧
    (¬((space_out nm r (word_out nm w r st).st).ty1 = [] ∧
        (space_out nm r (word_out nm w r st).st).ty2 = []) →
      (ws = [] →
        type_till_space nm (w :: ws) r st =
          some ((word_out nm w r st).ks ++ (space_out nm r (word_out nm w r st).st).ks,
            (word_out nm w r st).typed ++ (space_out nm r (word_out nm w r st).st).typed,
            1,
            (word_out nm w r st).typos ++ (space_out nm r (word_out nm w r st).st).ty1 ++
              (space_out nm r (word_out nm w r st).st).ty2)) ∧
      (∀ v, type_till_space nm ws r (space_out nm r (word_out nm w r st).st).st = some v →
        type_till_space nm (w :: ws) r st =
          some ((word_out nm w r st).ks ++ (space_out nm r (word_out nm w r st).st).ks ++ v.1,
            (word_out nm w r st).typed ++ (space_out nm r (word_out nm w r st).st).typed ++
              v.2.1,
            1 + v.2.2.1,
            (word_out nm w r st).typos ++ (space_out nm r (word_out nm w r st).st).ty1 ++
              (space_out nm r (word_out nm w r st).st).ty2 ++ v.2.2.2))) := by
  constructor
  · intro h1 h2
    refine ⟨?_, space_out_clean nm r _ h1 h2⟩
    simp only [type_till_space]
    rw [if_pos ⟨h1, h2⟩]
  · intro hnc
    constructor
    · intro hws
      subst hws
      simp only [type_till_space]
      rw [if_neg hnc]
    · intro v hv
      obtain ⟨rks, rtc, rn, rty⟩ := v
      simp only [type_till_space]
      rw [if_neg hnc, hv]

/-- Witness for C10: with every typo probability 0 the space after the
first word is clean, `type_till_space` stops after one word and the clean
space (which would have typed `" "`) is excluded. -/
theorem c10_clean_space_excluded_witness :
    type_till_space nmZero ["hi", "yo"] (srcConst (1/2) 0) st0 =
      some ((word_out nmZero "hi" (srcConst (1/2) 0) st0).ks,
        (word_out nmZero "hi" (srcConst (1/2) 0) st0).typed, 1,
        (word_out nmZero "hi" (srcConst (1/2) 0) st0).typos) ∧
    (space_out nmZero (srcConst (1/2) 0)
        (word_out nmZero "hi" (srcConst (1/2) 0) st0).st).typed = " " :=
  (c10_clean_space_excluded nmZero "hi" ["yo"] (srcConst (1/2) 0) st0).1
    (by with_unfolding_all decide) (by with_unfolding_all decide)

/-- Claim C7: every derived-metric function — `accuracy`, `precision`,
`recall`, `fbeta`, and significant-digit rounding at `x = 0` — returns `0`
whenever its computation would divide by zero (the attempted division is the
raising `ZeroDivisionError`, which the `try/except` maps to `0`) and never
propagates an error; when the denominator is nonzero the plain ratio is
returned. -/
theorem c7_metrics_zero_division :
    (∀ tp tn fp fn : ℤ, 0 ≤ tp → 0 ≤ tn → 0 ≤ fp → 0 ≤ fn →
      (tp + tn + fp + fn = 0 →
        accuracyE tp tn fp fn = .error .zeroDivision ∧ accuracy tp tn fp fn = 0) ∧
      (tp + tn + fp + fn ≠ 0 →
        accuracy tp tn fp fn = ((tp + tn : ℤ) : ℚ) / ((tp + tn + fp + fn : ℤ) : ℚ))) ∧
    (∀ tp fp : ℤ, 0 ≤ tp → 0 ≤ fp →
      (tp + fp = 0 →
        precisionE tp fp = .error .zeroDivision ∧ precision tp fp = 0) ∧
      (tp + fp ≠ 0 → precision tp fp = ((tp : ℤ) : ℚ) / ((tp + fp : ℤ) : ℚ))) ∧
    (∀ tp fn : ℤ, 0 ≤ tp → 0 ≤ fn →
      (tp + fn = 0 →
        recallE tp fn = .error .zeroDivision ∧ recall' tp fn = 0) ∧
      (tp + fn ≠ 0 → recall' tp fn = ((tp : ℤ) : ℚ) / ((tp + fn : ℤ) : ℚ))) ∧
    (∀ p r beta : ℚ, beta ^ 2 * p + r = 0 →
      fbetaE p r beta = .error .zeroDivision ∧ fbeta p r beta = 0) ∧
    round_to_n 0 2 = 0 := by
  refine ⟨?_, ?_, ?_, ?_, ?_⟩
  · intro tp tn fp fn _ _ _ _
    constructor
    · intro h
      have hq : ((tp : ℚ) + tn + fp + fn) = 0 := by exact_mod_cast h
      constructor
      · simp [accuracyE, pyDivE, hq]
      · simp [accuracy, accuracyE, pyDivE, hq]
    · intro h
      have hq : ((tp : ℚ) + tn + fp + fn) ≠ 0 := by exact_mod_cast h
      simp [accuracy, accuracyE, pyDivE, hq]
  · intro tp fp _ _
    constructor
    · intro h
      have hq : ((tp : ℚ) + fp) = 0 := by exact_mod_cast h
      exact ⟨by simp [precisionE, pyDivE, hq], by simp [precision, precisionE, pyDivE, hq]⟩
    · intro h
      have hq : ((tp : ℚ) + fp) ≠ 0 := by exact_mod_cast h
      simp [precision, precisionE, pyDivE, hq]
  · intro tp fn _ _
    constructor
    · intro h
      have hq : ((tp : ℚ) + fn) = 0 := by exact_mod_cast h
      exact ⟨by simp [recallE, pyDivE, hq], by simp [recall', recallE, pyDivE, hq]⟩
    · intro h
      have hq : ((tp : ℚ) + fn) ≠ 0 := by exact_mod_cast h
      simp [recall', recallE, pyDivE, hq]
  · intro p r beta h
    exact ⟨by simp [fbetaE, pyDivE, h], by simp [fbeta, fbetaE, pyDivE, h]⟩
  · simp [round_to_n]

/-- Witness for C7 at concrete zero counts: every division is attempted on a
zero denominator, raises, and is caught to `0`. -/
theorem c7_metrics_zero_division_witness :
    (accuracyE 0 0 0 0 = .error .zeroDivision ∧ accuracy 0 0 0 0 = 0) ∧
    (precisionE 0 0 = .error .zeroDivision ∧ precision 0 0 = 0) ∧
    (recallE 0 0 = .error .zeroDivision ∧ recall' 0 0 = 0) ∧
    (fbetaE 0 0 DEFAULT_BETA = .error .zeroDivision ∧ fbeta 0 0 DEFAULT_BETA = 0) ∧
    round_to_n 0 2 = 0 := by
  obtain ⟨h1, h2, h3, h4, h5⟩ := c7_metrics_zero_division
  exact ⟨(h1 0 0 0 0 le_rfl le_rfl le_rfl le_rfl).1 (by decide),
         (h2 0 0 le_rfl le_rfl).1 (by decide),
         (h3 0 0 le_rfl le_rfl).1 (by decide),
         h4 0 0 DEFAULT_BETA (by norm_num),
         h5⟩

/-- Claim C8: whenever `Scorer.score` returns a result, its `overall_score`
entry is the fixed weighted blend `0.15·nwp top3_accuracy + 0.2·acp
top3_accuracy + 0.4·acr fscore + 0.25·swp accuracy` of that same result's
per-task global score entries. -/
theorem c8_overall_score_is_fixed_blend (s : ScorerCounts) (beta : ℚ)
    (res : ScoreResults) (h : score s beta = .ok res) :
    res.overall_score =
      0.15 * res.core.nwp.score.top3_accuracy +
      0.2 * res.core.acp.score.top3_accuracy +
      0.4 * res.core.acr.score.fscore +
      0.25 * res.core.swp.score.accuracy := by
  unfold score at h
  rcases hr : acrRedistribute s with e | ntPerT <;> rw [hr] at h
  · cases h
  · cases h
    rfl

/-- Witness for C8 on the empty two-domain scorer. -/
theorem c8_overall_score_is_fixed_blend_witness :
    ∃ res, score (scorer_init ["d1", "d2"]) DEFAULT_BETA = .ok res ∧
      res.overall_score =
        0.15 * res.core.nwp.score.top3_accuracy +
        0.2 * res.core.acp.score.top3_accuracy +
        0.4 * res.core.acr.score.fscore +
        0.25 * res.core.swp.score.accuracy := by
  refine ⟨_, rfl, ?_⟩
  exact c8_overall_score_is_fixed_blend (scorer_init ["d1", "d2"]) DEFAULT_BETA _ rfl

end Kebbie
